import Mathlib

/-!
# Verification of the request/response cache with sidecar large-value storage

Shallow embedding of the caching + sidecar subsystem of the repository
(`typescript/shared/src/json-sidecar.ts` and the request-cache module) in
Lean 4, together with theorems settling the specification claims.

Modelling conventions:
* JavaScript strings are modelled as Lean `String`s (sequences of Unicode
  scalar values); string `length` is the number of characters.
* Machine arithmetic in SHA-256 is modelled as `Nat` with explicit
  reduction modulo `2 ^ 32`.
* JSON numbers are modelled as integers (`Int`); no claim under
  verification involves fractional numeric literals.
* The JSON text layer (`JSON.stringify` / `JSON.parse`) is modelled as the
  canonical bijection between JSON trees and their texts: the sidecar
  codec's replacer/reviver act leaf-wise on the tree, and a file's content
  is modelled by its parse status (a parsable JSON file by its tree, any
  other file by its raw text).
-/

namespace OpenRouterCache

set_option maxRecDepth 1000000

/-! ## SHA-256 over byte lists (model of node:crypto createHash('sha256')) -/

/-- Truncate to a 32-bit word. -/
def w32 (n : Nat) : Nat := n % 4294967296

/-- 32-bit right rotation. -/
def rotr (n x : Nat) : Nat := w32 ((x >>> n) ||| (x <<< (32 - n)))

/-- 32-bit right shift. -/
def shr (n x : Nat) : Nat := x >>> n

/-- SHA-256 round constants. -/
def sha256K : List Nat :=
  [1116352408, 1899447441, 3049323471, 3921009573, 961987163,
   1508970993, 2453635748, 2870763221, 3624381080, 310598401,
   607225278, 1426881987, 1925078388, 2162078206, 2614888103,
   3248222580, 3835390401, 4022224774, 264347078, 604807628,
   770255983, 1249150122, 1555081692, 1996064986, 2554220882,
   2821834349, 2952996808, 3210313671, 3336571891, 3584528711,
   113926993, 338241895, 666307205, 773529912, 1294757372,
   1396182291, 1695183700, 1986661051, 2177026350, 2456956037,
   2730485921, 2820302411, 3259730800, 3345764771, 3516065817,
   3600352804, 4094571909, 275423344, 430227734, 506948616,
   659060556, 883997877, 958139571, 1322822218, 1537002063,
   1747873779, 1955562222, 2024104815, 2227730452, 2361852424,
   2428436474, 2756734187, 3204031479, 3329325298]

/-- SHA-256 initial hash state. -/
def sha256H0 : List Nat :=
  [1779033703, 3144134277, 1013904242, 2773480762,
   1359893119, 2600822924, 528734635, 1541459225]

/-- Extend a 16-word block to the 64-word message schedule
(`n` words remain to be appended). -/
def sha256Schedule : Nat → List Nat → List Nat
  | 0, ws => ws
  | n + 1, ws =>
    let i := ws.length
    let s0 :=
      let x := ws.getD (i - 15) 0
      w32 (Nat.xor (Nat.xor (rotr 7 x) (rotr 18 x)) (shr 3 x))
    let s1 :=
      let x := ws.getD (i - 2) 0
      w32 (Nat.xor (Nat.xor (rotr 17 x) (rotr 19 x)) (shr 10 x))
    sha256Schedule n (ws ++ [w32 (ws.getD (i - 16) 0 + s0 + ws.getD (i - 7) 0 + s1)])

/-- Working state of the SHA-256 compression function. -/
structure Sha256State where
  a : Nat
  b : Nat
  c : Nat
  d : Nat
  e : Nat
  f : Nat
  g : Nat
  h : Nat
deriving Repr, DecidableEq

/-- One round of the SHA-256 compression function. -/
def sha256Round (st : Sha256State) (k w : Nat) : Sha256State :=
  let s1 := w32 (Nat.xor (Nat.xor (rotr 6 st.e) (rotr 11 st.e)) (rotr 25 st.e))
  let ch := w32 (Nat.xor (Nat.land st.e st.f) (Nat.land (Nat.xor st.e 4294967295) st.g))
  let t1 := w32 (st.h + s1 + ch + k + w)
  let s0 := w32 (Nat.xor (Nat.xor (rotr 2 st.a) (rotr 13 st.a)) (rotr 22 st.a))
  let mj := w32 (Nat.xor (Nat.xor (Nat.land st.a st.b) (Nat.land st.a st.c)) (Nat.land st.b st.c))
  let t2 := w32 (s0 + mj)
  { a := w32 (t1 + t2), b := st.a, c := st.b, d := st.c,
    e := w32 (st.d + t1), f := st.e, g := st.f, h := st.g }

/-- Process one 16-word block, updating the 8-word hash value. -/
def sha256Block (hv : List Nat) (block : List Nat) : List Nat :=
  let ws := sha256Schedule 48 block
  let st0 : Sha256State :=
    { a := hv.getD 0 0, b := hv.getD 1 0, c := hv.getD 2 0, d := hv.getD 3 0,
      e := hv.getD 4 0, f := hv.getD 5 0, g := hv.getD 6 0, h := hv.getD 7 0 }
  let st := (sha256K.zip ws).foldl (fun s kw => sha256Round s kw.1 kw.2) st0
  [w32 (hv.getD 0 0 + st.a), w32 (hv.getD 1 0 + st.b), w32 (hv.getD 2 0 + st.c),
   w32 (hv.getD 3 0 + st.d), w32 (hv.getD 4 0 + st.e), w32 (hv.getD 5 0 + st.f),
   w32 (hv.getD 6 0 + st.g), w32 (hv.getD 7 0 + st.h)]

/-- Split a list into chunks of `n` elements (`fuel` bounds recursion depth). -/
def chunksAux (n : Nat) : Nat → List Nat → List (List Nat)
  | 0, _ => []
  | _, [] => []
  | fuel + 1, xs => xs.take n :: chunksAux n fuel (xs.drop n)

def chunks (n : Nat) (xs : List Nat) : List (List Nat) := chunksAux n (xs.length + 1) xs

/-- Big-endian 32-bit words from bytes. -/
def bytesToWords (bs : List Nat) : List Nat :=
  (chunks 4 bs).map fun c =>
    c.getD 0 0 * 16777216 + c.getD 1 0 * 65536 + c.getD 2 0 * 256 + c.getD 3 0

/-- Big-endian byte expansion of `n` to `len` bytes. -/
def natToBytesBE (len n : Nat) : List Nat :=
  (List.range len).map fun i => n / 256 ^ (len - 1 - i) % 256

/-- SHA-256 message padding: `0x80`, zeros to 56 mod 64, 64-bit bit length. -/
def sha256Pad (msg : List Nat) : List Nat :=
  let zeros := (64 + 55 - msg.length % 64) % 64
  msg ++ [128] ++ List.replicate zeros 0 ++ natToBytesBE 8 (msg.length * 8)

/-- SHA-256 digest of a byte list, as the list of eight 32-bit words. -/
def sha256Words (msg : List Nat) : List Nat :=
  (chunks 16 (bytesToWords (sha256Pad msg))).foldl sha256Block sha256H0

/-- One lowercase hexadecimal digit. -/
def hexDigit (n : Nat) : Char :=
  if n < 10 then Char.ofNat (48 + n) else Char.ofNat (87 + n)

/-- Lowercase hexadecimal rendering of a 32-bit word. -/
def wordToHex (w : Nat) : List Char :=
  (List.range 8).map fun i => hexDigit (w / 16 ^ (7 - i) % 16)

/-- Lowercase hex SHA-256 digest of a byte list
(model of `createHash('sha256').update(...).digest('hex')`). -/
def sha256Hex (msg : List Nat) : String :=
  String.mk ((sha256Words msg).flatMap wordToHex)

/-! ## UTF-8 encoding of strings -/

/-- UTF-8 bytes of one Unicode scalar value. -/
def utf8Char (c : Char) : List Nat :=
  let n := c.toNat
  if n < 128 then [n]
  else if n < 2048 then [192 + n / 64, 128 + n % 64]
  else if n < 65536 then [224 + n / 4096, 128 + n / 64 % 64, 128 + n % 64]
  else [240 + n / 262144, 128 + n / 4096 % 64, 128 + n / 64 % 64, 128 + n % 64]

/-- UTF-8 bytes of a string. -/
def utf8 (s : String) : List Nat := s.data.flatMap utf8Char

/-! ## JSON trees

Model of JavaScript JSON-representable values.  Numbers are modelled as
integers; object entries are kept in property order. -/

inductive Json where
  | null
  | bool (b : Bool)
  | num (n : Int)
  | str (s : String)
  | arr (elems : List Json)
  | obj (entries : List (String × Json))
deriving Repr, Inhabited

mutual

def Json.decEq : (a b : Json) → Decidable (a = b)
  | .null, .null => isTrue rfl
  | .null, .bool _ => isFalse (fun h => Json.noConfusion h)
  | .null, .num _ => isFalse (fun h => Json.noConfusion h)
  | .null, .str _ => isFalse (fun h => Json.noConfusion h)
  | .null, .arr _ => isFalse (fun h => Json.noConfusion h)
  | .null, .obj _ => isFalse (fun h => Json.noConfusion h)
  | .bool _, .null => isFalse (fun h => Json.noConfusion h)
  | .bool a, .bool b =>
    if h : a = b then isTrue (congrArg Json.bool h)
    else isFalse (fun he => h (Json.bool.inj he))
  | .bool _, .num _ => isFalse (fun h => Json.noConfusion h)
  | .bool _, .str _ => isFalse (fun h => Json.noConfusion h)
  | .bool _, .arr _ => isFalse (fun h => Json.noConfusion h)
  | .bool _, .obj _ => isFalse (fun h => Json.noConfusion h)
  | .num _, .null => isFalse (fun h => Json.noConfusion h)
  | .num _, .bool _ => isFalse (fun h => Json.noConfusion h)
  | .num a, .num b =>
    if h : a = b then isTrue (congrArg Json.num h)
    else isFalse (fun he => h (Json.num.inj he))
  | .num _, .str _ => isFalse (fun h => Json.noConfusion h)
  | .num _, .arr _ => isFalse (fun h => Json.noConfusion h)
  | .num _, .obj _ => isFalse (fun h => Json.noConfusion h)
  | .str _, .null => isFalse (fun h => Json.noConfusion h)
  | .str _, .bool _ => isFalse (fun h => Json.noConfusion h)
  | .str _, .num _ => isFalse (fun h => Json.noConfusion h)
  | .str a, .str b =>
    if h : a = b then isTrue (congrArg Json.str h)
    else isFalse (fun he => h (Json.str.inj he))
  | .str _, .arr _ => isFalse (fun h => Json.noConfusion h)
  | .str _, .obj _ => isFalse (fun h => Json.noConfusion h)
  | .arr _, .null => isFalse (fun h => Json.noConfusion h)
  | .arr _, .bool _ => isFalse (fun h => Json.noConfusion h)
  | .arr _, .num _ => isFalse (fun h => Json.noConfusion h)
  | .arr _, .str _ => isFalse (fun h => Json.noConfusion h)
  | .arr xs, .arr ys =>
    match Json.decEqList xs ys with
    | isTrue h => isTrue (congrArg Json.arr h)
    | isFalse h => isFalse (fun he => h (Json.arr.inj he))
  | .arr _, .obj _ => isFalse (fun h => Json.noConfusion h)
  | .obj _, .null => isFalse (fun h => Json.noConfusion h)
  | .obj _, .bool _ => isFalse (fun h => Json.noConfusion h)
  | .obj _, .num _ => isFalse (fun h => Json.noConfusion h)
  | .obj _, .str _ => isFalse (fun h => Json.noConfusion h)
  | .obj _, .arr _ => isFalse (fun h => Json.noConfusion h)
  | .obj xs, .obj ys =>
    match Json.decEqObj xs ys with
    | isTrue h => isTrue (congrArg Json.obj h)
    | isFalse h => isFalse (fun he => h (Json.obj.inj he))

termination_by structural a => a

def Json.decEqList : (a b : List Json) → Decidable (a = b)
  | [], [] => isTrue rfl
  | [], _ :: _ => isFalse (fun h => List.noConfusion h)
  | _ :: _, [] => isFalse (fun h => List.noConfusion h)
  | x :: xs, y :: ys =>
    match Json.decEq x y with
    | isFalse h => isFalse (fun he => h (List.cons.inj he).1)
    | isTrue h1 =>
      match Json.decEqList xs ys with
      | isTrue h2 => isTrue (by rw [h1, h2])
      | isFalse h2 => isFalse (fun he => h2 (List.cons.inj he).2)

termination_by structural a => a

def Json.decEqObj : (a b : List (String × Json)) → Decidable (a = b)
  | [], [] => isTrue rfl
  | [], _ :: _ => isFalse (fun h => List.noConfusion h)
  | _ :: _, [] => isFalse (fun h => List.noConfusion h)
  | (k, v) :: xs, (l, w) :: ys =>
    if hk : k = l then
      match Json.decEq v w with
      | isFalse h => isFalse (fun he => h (congrArg Prod.snd (List.cons.inj he).1))
      | isTrue h1 =>
        match Json.decEqObj xs ys with
        | isTrue h2 => isTrue (by rw [hk, h1, h2])
        | isFalse h2 => isFalse (fun he => h2 (List.cons.inj he).2)
    else isFalse (fun he => hk (congrArg Prod.fst (List.cons.inj he).1))
termination_by structural a => a

end

instance : DecidableEq Json := Json.decEq

theorem attach_map_eq {α β : Type} (l : List α) (f : α → β) :
    l.attach.map (fun x => f x.1) = l.map f := by
  simp [List.attach, List.attachWith, List.map_pmap, List.pmap_eq_map]

theorem attach_flatMap_eq {α β : Type} (l : List α) (f : α → List β) :
    l.attach.flatMap (fun x => f x.1) = l.flatMap f := by
  rw [List.flatMap_def, List.flatMap_def, ← attach_map_eq l f]

theorem sizeOf_mem_lt_arr {x : Json} {xs : List Json} (h : x ∈ xs) :
    sizeOf x < sizeOf (Json.arr xs) := by
  have := List.sizeOf_lt_of_mem h
  simp
  omega

theorem sizeOf_mem_lt_obj {kv : String × Json} {kvs : List (String × Json)}
    (h : kv ∈ kvs) : sizeOf kv.2 < sizeOf (Json.obj kvs) := by
  have h1 := List.sizeOf_lt_of_mem h
  obtain ⟨a, b⟩ := kv
  simp at h1 ⊢
  omega

/-- Induction over `Json` with inductive hypotheses for all array elements
and object field values. -/
theorem Json.recOnLeaves {P : Json → Prop}
    (hnull : P .null) (hbool : ∀ b, P (.bool b)) (hnum : ∀ n, P (.num n))
    (hstr : ∀ s, P (.str s))
    (harr : ∀ xs, (∀ x ∈ xs, P x) → P (.arr xs))
    (hobj : ∀ kvs, (∀ kv ∈ kvs, P kv.2) → P (.obj kvs)) :
    ∀ j, P j
  | .null => hnull
  | .bool b => hbool b
  | .num n => hnum n
  | .str s => hstr s
  | .arr xs => harr xs (fun x hx =>
      Json.recOnLeaves hnull hbool hnum hstr harr hobj x)
  | .obj kvs => hobj kvs (fun kv hkv =>
      Json.recOnLeaves hnull hbool hnum hstr harr hobj kv.2)
termination_by j => sizeOf j
decreasing_by
  · exact sizeOf_mem_lt_arr hx
  · exact sizeOf_mem_lt_obj hkv

mutual

/-- Apply a function to every string leaf of a JSON tree (the action of a
`JSON.stringify` replacer / `JSON.parse` reviver that only rewrites
strings). -/
def Json.mapStr (f : String → String) : Json → Json
  | .null => .null
  | .bool b => .bool b
  | .num n => .num n
  | .str s => .str (f s)
  | .arr xs => .arr (Json.mapStrList f xs)
  | .obj kvs => .obj (Json.mapStrObj f kvs)
termination_by structural j => j

def Json.mapStrList (f : String → String) : List Json → List Json
  | [] => []
  | x :: xs => Json.mapStr f x :: Json.mapStrList f xs
termination_by structural l => l

def Json.mapStrObj (f : String → String) :
    List (String × Json) → List (String × Json)
  | [] => []
  | (k, v) :: rest => (k, Json.mapStr f v) :: Json.mapStrObj f rest
termination_by structural l => l

end

theorem Json.mapStrList_eq (f : String → String) (xs : List Json) :
    Json.mapStrList f xs = xs.map (Json.mapStr f) := by
  induction xs with
  | nil => rfl
  | cons x rest ih => simp [Json.mapStrList, ih]

theorem Json.mapStrObj_eq (f : String → String) (kvs : List (String × Json)) :
    Json.mapStrObj f kvs = kvs.map fun kv => (kv.1, Json.mapStr f kv.2) := by
  induction kvs with
  | nil => rfl
  | cons kv rest ih =>
    obtain ⟨k, v⟩ := kv
    simp [Json.mapStrObj, ih]

@[simp] theorem Json.mapStr_null (f : String → String) :
    Json.mapStr f .null = .null := rfl

@[simp] theorem Json.mapStr_bool (f : String → String) (b : Bool) :
    Json.mapStr f (.bool b) = .bool b := rfl

@[simp] theorem Json.mapStr_num (f : String → String) (n : Int) :
    Json.mapStr f (.num n) = .num n := rfl

@[simp] theorem Json.mapStr_str (f : String → String) (s : String) :
    Json.mapStr f (.str s) = .str (f s) := rfl

@[simp] theorem Json.mapStr_arr (f : String → String) (xs : List Json) :
    Json.mapStr f (.arr xs) = .arr (xs.map (Json.mapStr f)) := by
  rw [Json.mapStr, Json.mapStrList_eq]

@[simp] theorem Json.mapStr_obj (f : String → String)
    (kvs : List (String × Json)) :
    Json.mapStr f (.obj kvs) = .obj (kvs.map fun kv => (kv.1, Json.mapStr f kv.2)) := by
  rw [Json.mapStr, Json.mapStrObj_eq]

mutual

/-- The string leaves of a JSON tree, in document order (the order in which
a `JSON.stringify` replacer visits them). -/
def Json.strings : Json → List String
  | .null => []
  | .bool _ => []
  | .num _ => []
  | .str s => [s]
  | .arr xs => Json.stringsList xs
  | .obj kvs => Json.stringsObj kvs
termination_by structural j => j

def Json.stringsList : List Json → List String
  | [] => []
  | x :: xs => Json.strings x ++ Json.stringsList xs
termination_by structural l => l

def Json.stringsObj : List (String × Json) → List String
  | [] => []
  | (_, v) :: rest => Json.strings v ++ Json.stringsObj rest
termination_by structural l => l

end

theorem Json.stringsList_eq (xs : List Json) :
    Json.stringsList xs = xs.flatMap Json.strings := by
  induction xs with
  | nil => rfl
  | cons x rest ih => simp [Json.stringsList, ih]

theorem Json.stringsObj_eq (kvs : List (String × Json)) :
    Json.stringsObj kvs = kvs.flatMap fun kv => Json.strings kv.2 := by
  induction kvs with
  | nil => rfl
  | cons kv rest ih =>
    obtain ⟨k, v⟩ := kv
    simp [Json.stringsObj, ih]

@[simp] theorem Json.strings_null : Json.strings .null = [] := rfl

@[simp] theorem Json.strings_bool (b : Bool) : Json.strings (.bool b) = [] := rfl

@[simp] theorem Json.strings_num (n : Int) : Json.strings (.num n) = [] := rfl

@[simp] theorem Json.strings_str (s : String) : Json.strings (.str s) = [s] := rfl

@[simp] theorem Json.strings_arr (xs : List Json) :
    Json.strings (.arr xs) = xs.flatMap Json.strings := by
  rw [Json.strings, Json.stringsList_eq]

@[simp] theorem Json.strings_obj (kvs : List (String × Json)) :
    Json.strings (.obj kvs) = kvs.flatMap fun kv => Json.strings kv.2 := by
  rw [Json.strings, Json.stringsObj_eq]

/-! ## String search (model of `String.prototype.indexOf` / `includes`) -/

/-- First index at which `sub` occurs in `hay` (`none` models `indexOf`
returning `-1`). -/
def firstSubIdx (hay sub : List Char) : Option Nat :=
  match hay with
  | [] => if sub = [] then some 0 else none
  | _ :: t =>
    if sub.isPrefixOf hay then some 0
    else (firstSubIdx t sub).map (· + 1)

/-- `s.indexOf(sub)` as an `Option Nat`. -/
def strIndexOf (s sub : String) : Option Nat := firstSubIdx s.data sub.data

/-- `s.includes(sub)`. -/
def strIncludes (s sub : String) : Bool := (strIndexOf s sub).isSome

/-- `s.slice(n)`: drop the first `n` characters. -/
def strDrop (s : String) (n : Nat) : String := String.mk (s.data.drop n)

/-- `s.slice(0, n)`: take the first `n` characters. -/
def strTake (s : String) (n : Nat) : String := String.mk (s.data.take n)

/-- `parts.join(sep)`. -/
def joinStr (sep : String) (parts : List String) : String :=
  match parts with
  | [] => ""
  | p :: rest => rest.foldl (fun acc q => acc ++ sep ++ q) p

/-! ## Compact JSON serialization (model of `JSON.stringify` with no
replacer and no indentation, as used for cache-key derivation) -/

/-- JSON string escaping as performed by `JSON.stringify`. -/
def escapeChar (c : Char) : List Char :=
  if c = '"' then ['\\', '"']
  else if c = '\\' then ['\\', '\\']
  else if c = '\x08' then ['\\', 'b']
  else if c = '\t' then ['\\', 't']
  else if c = '\n' then ['\\', 'n']
  else if c = '\x0c' then ['\\', 'f']
  else if c = '\r' then ['\\', 'r']
  else if c.toNat < 32 then
    ['\\', 'u', '0', '0', hexDigit (c.toNat / 16), hexDigit (c.toNat % 16)]
  else [c]

/-- A JSON string literal for `s`. -/
def quoteStr (s : String) : String :=
  "\"" ++ String.mk (s.data.flatMap escapeChar) ++ "\""

mutual

/-- Compact rendering of a JSON tree, matching `JSON.stringify(value)`
(integer numbers, properties in order). -/
def jsonStringify : Json → String
  | .null => "null"
  | .bool true => "true"
  | .bool false => "false"
  | .num n => toString n
  | .str s => quoteStr s
  | .arr xs => "[" ++ joinStr "," (jsonStringifyList xs) ++ "]"
  | .obj kvs => "\x7b" ++ joinStr "," (jsonStringifyObj kvs) ++ "\x7d"
termination_by structural j => j

def jsonStringifyList : List Json → List String
  | [] => []
  | x :: xs => jsonStringify x :: jsonStringifyList xs
termination_by structural l => l

def jsonStringifyObj : List (String × Json) → List String
  | [] => []
  | (k, v) :: rest => (quoteStr k ++ ":" ++ jsonStringify v) :: jsonStringifyObj rest
termination_by structural l => l

end

mutual

/-- `String(x)` string coercion of a JSON value (array elements render
recursively, `null` elements render empty, objects render as
`[object Object]`). -/
def jsToString : Json → String
  | .null => "null"
  | .bool true => "true"
  | .bool false => "false"
  | .num n => toString n
  | .str s => s
  | .arr xs => joinStr "," (jsToStringList xs)
  | .obj _ => "[object Object]"
termination_by structural j => j

def jsToStringList : List Json → List String
  | [] => []
  | .null :: xs => "" :: jsToStringList xs
  | x :: xs => jsToString x :: jsToStringList xs
termination_by structural l => l

end

/-! ## ISO timestamp rendering (model of `new Date(ms).toISOString()` for
non-negative epoch milliseconds) -/

/-- Left-pad a decimal rendering with zeros to `w` digits. -/
def padNum (w n : Nat) : String :=
  let d := toString n
  String.mk (List.replicate (w - d.length) '0') ++ d

/-- Gregorian calendar date from days since 1970-01-01. -/
def civilFromDays (z : Nat) : Nat × Nat × Nat :=
  let z' := z + 719468
  let era := z' / 146097
  let doe := z' % 146097
  let yoe := (doe - doe / 1460 + doe / 36524 - doe / 146096) / 365
  let y := yoe + era * 400
  let doy := doe - (365 * yoe + yoe / 4 - yoe / 100)
  let mp := (5 * doy + 2) / 153
  let d := doy - (153 * mp + 2) / 5 + 1
  let m := if mp < 10 then mp + 3 else mp - 9
  (if m ≤ 2 then y + 1 else y, m, d)

/-- `new Date(ms).toISOString()` for `ms ≥ 0`. -/
def isoString (ms : Nat) : String :=
  let days := ms / 86400000
  let rem := ms % 86400000
  let ymd := civilFromDays days
  padNum 4 ymd.1 ++ "-" ++ padNum 2 ymd.2.1 ++ "-" ++ padNum 2 ymd.2.2 ++
    "T" ++ padNum 2 (rem / 3600000) ++ ":" ++ padNum 2 (rem / 60000 % 60) ++
    ":" ++ padNum 2 (rem / 1000 % 60) ++ "." ++ padNum 3 (rem % 1000) ++ "Z"

/-! ## Sidecar codec (`typescript/shared/src/json-sidecar.ts`)

The JSON text layer is modelled as the canonical bijection between JSON
trees and texts: `stringify`'s output text is represented by the
replaced tree `stringifyTree`, together with the sidecar file writes
`stringifyWrites`; `parse`'s reviver acts leaf-wise via `parseTree`.
Sidecar files are modelled as a partial map from filename to content. -/

/-- Sidecar directory contents: filename → file text. -/
def SideStore : Type := String → Option String

def SIDECAR_MARKER : String := "__SIDECAR__:"

def DEFAULT_THRESHOLD : Nat := 1000

/-- Characters that JavaScript regex `.` does not match. -/
def isLineTerm (c : Char) : Bool :=
  c = '\n' || c = '\r' || c = Char.ofNat 0x2028 || c = Char.ofNat 0x2029

/-- Match of `DATA_URL_REGEX = /^(data:[^;]+;base64,)(.+)$/` against a
string: returns the captured `(prefix, payload)` on success.  The
media-type segment is the maximal run of non-`;` characters after
`data:`; the payload must be non-empty and free of line terminators. -/
def dataUrlMatch (s : String) : Option (String × String) :=
  match s.data with
  | 'd' :: 'a' :: 't' :: 'a' :: ':' :: rest =>
    let mt := rest.takeWhile (fun c => c ≠ ';')
    let rest2 := rest.dropWhile (fun c => c ≠ ';')
    if mt = [] then none
    else if rest2.take 8 = (";base64,").data then
      let payload := rest2.drop 8
      if payload ≠ [] && payload.all (fun c => ¬ isLineTerm c) then
        some (String.mk ('d' :: 'a' :: 't' :: 'a' :: ':' :: (mt ++ (";base64,").data)),
          String.mk payload)
      else none
    else none
  | _ => none

/-- `hashValue`: first 12 hex characters of the SHA-256 digest. -/
def hashValue (value : String) : String :=
  strTake (sha256Hex (utf8 value)) 12

/-- `hasSidecarRef`: the string contains the sidecar marker. -/
def hasSidecarRef (value : String) : Bool := strIncludes value SIDECAR_MARKER

/-- `makeSidecarRef`. -/
def makeSidecarRef (hash : String) : String := SIDECAR_MARKER ++ hash

/-- `extractSidecarHash`: everything after the first marker occurrence. -/
def extractSidecarHash (ref : String) : Option String :=
  match strIndexOf ref SIDECAR_MARKER with
  | none => none
  | some idx => some (strDrop ref (idx + SIDECAR_MARKER.length))

/-- Result of `processLargeString`. -/
structure ProcessedString where
  ref : String
  content : String
deriving Repr, DecidableEq

/-- `processLargeString`: split a data URL so only the payload is
externalized; externalize any other string whole. -/
def processLargeString (value : String) : ProcessedString :=
  match dataUrlMatch value with
  | some (dataPrefix, base64Data) =>
    { ref := dataPrefix ++ makeSidecarRef (hashValue base64Data),
      content := base64Data }
  | none =>
    { ref := makeSidecarRef (hashValue value), content := value }

/-- `restoreSidecarRef`: resolve one reference against the sidecar
directory; on a missing file the value is returned unchanged. -/
def restoreSidecarRef (store : SideStore) (value : String) : String :=
  match extractSidecarHash value with
  | none => value
  | some hash =>
    match store (hash ++ ".sidecar") with
    | none => value
    | some content =>
      match strIndexOf value SIDECAR_MARKER with
      | some markerIdx =>
        if 0 < markerIdx then strTake value markerIdx ++ content else content
      | none => content

/-- The `console.warn` branch of `restoreSidecarRef`: a diagnostic warning
is emitted exactly when a hash is extracted but its sidecar file is
missing. -/
def restoreWarns (store : SideStore) (value : String) : Bool :=
  match extractSidecarHash value with
  | none => false
  | some hash => (store (hash ++ ".sidecar")).isNone

/-- The replacer of `stringify`, acting on one string leaf. -/
def replaceLeaf (threshold : Nat) (val : String) : String :=
  if val.length > threshold then (processLargeString val).ref else val

/-- The tree underlying the JSON text returned by `stringify`. -/
def stringifyTree (threshold : Nat) (v : Json) : Json :=
  v.mapStr (replaceLeaf threshold)

/-- JavaScript `Map.prototype.set` on an association list: replace in
place, or append. -/
def mapSet (m : List (String × String)) (k v : String) : List (String × String) :=
  match m with
  | [] => [(k, v)]
  | (k', v') :: rest => if k' = k then (k, v) :: rest else (k', v') :: mapSet rest k v

/-- The sidecar files written by `stringify` (filename → content), in the
order the replacer visits string leaves. -/
def stringifyWrites (threshold : Nat) (v : Json) : List (String × String) :=
  v.strings.foldl
    (fun m s =>
      if s.length > threshold then
        match extractSidecarHash (processLargeString s).ref with
        | some hash => mapSet m (hash ++ ".sidecar") (processLargeString s).content
        | none => m
      else m)
    []

/-- Apply `writeFileSync` for each `(filename, content)` pair. -/
def applyWrites (store : SideStore) (ws : List (String × String)) : SideStore :=
  ws.foldl (fun st kv => fun p => if p = kv.1 then some kv.2 else st p) store

/-- The reviver of `parse`, acting on one string leaf. -/
def reviveLeaf (store : SideStore) (val : String) : String :=
  if hasSidecarRef val then restoreSidecarRef store val else val

/-- The tree underlying the value returned by `parse`. -/
def parseTree (store : SideStore) (v : Json) : Json :=
  v.mapStr (reviveLeaf store)

mutual

/-- `hasUnresolvedRefs`: recursively scan for any remaining sidecar
marker. -/
def hasUnresolvedRefs : Json → Bool
  | .null => false
  | .bool _ => false
  | .num _ => false
  | .str s => hasSidecarRef s
  | .arr xs => hasUnresolvedRefsList xs
  | .obj kvs => hasUnresolvedRefsObj kvs
termination_by structural j => j

def hasUnresolvedRefsList : List Json → Bool
  | [] => false
  | x :: xs => hasUnresolvedRefs x || hasUnresolvedRefsList xs
termination_by structural l => l

def hasUnresolvedRefsObj : List (String × Json) → Bool
  | [] => false
  | (_, v) :: rest => hasUnresolvedRefs v || hasUnresolvedRefsObj rest
termination_by structural l => l

end

/-! ## File-system state (request-cache module)

A file's content is modelled by how the program consumes it: a file whose
text parses as JSON by its tree (`jsonData`), any other file by its raw
text (`textData`).  Directory existence is tracked separately.  The
absolute directory prefix built from `__dirname` is modelled by the fixed
relative prefix `.cache/`. -/

inductive FileData where
  | jsonData (j : Json)
  | textData (s : String)
deriving Repr, DecidableEq

structure Fs where
  files : String → Option FileData
  dirs : String → Bool

/-- The empty file system. -/
def Fs.empty : Fs := { files := fun _ => none, dirs := fun _ => false }

/-- `existsSync` on a file path. -/
def existsFile (fs : Fs) (p : String) : Bool := (fs.files p).isSome

/-- `existsSync` on a directory path. -/
def existsDir (fs : Fs) (p : String) : Bool := fs.dirs p

/-- `JSON.parse(readFileSync(p, 'utf-8'))` inside a `try`: `some` exactly
when the file exists and its text parses as JSON. -/
def readJsonFile (fs : Fs) (p : String) : Option Json :=
  match fs.files p with
  | some (.jsonData j) => some j
  | _ => none

/-- `readFileSync(p, 'utf-8')` of a raw (sidecar) file. -/
def readTextFile (fs : Fs) (p : String) : Option String :=
  match fs.files p with
  | some (.textData s) => some s
  | _ => none

/-- `writeFileSync`. -/
def writeFileData (fs : Fs) (p : String) (d : FileData) : Fs :=
  { fs with files := fun q => if q = p then some d else fs.files q }

/-- `mkdirSync(p, { recursive: true })`. -/
def mkdirDir (fs : Fs) (p : String) : Fs :=
  { fs with dirs := fun q => if q = p then true else fs.dirs q }

def pathJoin (a b : String) : String := a ++ "/" ++ b

def CACHE_DIR : String := ".cache/requests"

/-- Shared sidecars to avoid duplication. -/
def SIDECAR_DIR : String := ".cache/sidecars"

/-! ## Cache key derivation -/

/-- `normalizeRequestBody`: falsy and non-object bodies are returned
unchanged; otherwise the entries produced by `Object.entries` are copied
in iteration order into a fresh plain object (for a JSON object this
copies the properties in order; for a JSON array it produces an object
keyed by decimal indices). -/
def normalizeRequestBody (body : Json) : Json :=
  match body with
  | .obj entries => .obj (entries.map fun kv => (kv.1, kv.2))
  | .arr elems => .obj (elems.enum.map fun p => (toString p.1, p.2))
  | other => other

/-- `getCacheKey`: first 16 hex characters of the SHA-256 digest of the
UTF-8 bytes of `url` followed by the UTF-8 bytes of
`JSON.stringify(normalizeRequestBody(body))`. -/
def getCacheKey (url : String) (body : Json) : String :=
  strTake (sha256Hex (utf8 url ++ utf8 (jsonStringify (normalizeRequestBody body)))) 16

def getCacheFolder (key : String) : String := pathJoin CACHE_DIR key

structure CachePaths where
  folder : String
  meta : String
  request : String
  response : String
deriving Repr, DecidableEq

def getCachePaths (key : String) : CachePaths :=
  let folder := getCacheFolder key
  { folder := folder,
    meta := pathJoin folder "meta.json",
    request := pathJoin folder "request.json",
    response := pathJoin folder "response.json" }

/-! ## JavaScript property access helpers -/

def objGet (entries : List (String × Json)) (k : String) : Option Json :=
  match entries with
  | [] => none
  | (k', v) :: rest => if k' = k then some v else objGet rest k

/-- `x[k]` for a JSON value: `none` models a thrown `TypeError` (property
access on `null`); `some none` models `undefined`; named properties of
primitives and arrays are `undefined`. -/
def jsGetProp (j : Json) (k : String) : Option (Option Json) :=
  match j with
  | .null => none
  | .obj entries => some (objGet entries k)
  | _ => some none

/-- JavaScript truthiness of a JSON value. -/
def jsTruthy : Json → Bool
  | .null => false
  | .bool b => b
  | .num n => n ≠ 0
  | .str s => s ≠ ""
  | .arr _ => true
  | .obj _ => true

/-! ## Cache metadata -/

structure CachedResponseBody where
  json : Option Json
  text : Option String
deriving Repr, DecidableEq

structure CachedResponse where
  status : Int
  statusText : String
  headers : List (String × String)
  body : CachedResponseBody
  timestamp : Nat
deriving Repr, DecidableEq

structure StackInfo where
  frames : List String
  callerFile : Option String
deriving Repr, DecidableEq

structure CacheMeta where
  key : String
  url : String
  method : String
  model : Option String
  provider : Option Json
  status : Int
  statusText : String
  timestamp : Nat
  timestampISO : String
  responseSummary : String
  success : Bool
  errorMessage : Option String
  stackTrace : List String
  callerFile : Option String
deriving Repr, DecidableEq

/-- `extractModel`: `String(body.model)` when `body` is an object carrying
the property. -/
def extractModel (body : Json) : Option String :=
  match body with
  | .obj entries =>
    match objGet entries "model" with
    | some v => some (jsToString v)
    | none => none
  | _ => none

/-- `extractProvider`. -/
def extractProvider (body : Json) : Option Json :=
  match body with
  | .obj entries => objGet entries "provider"
  | _ => none

/-- `extractErrorMessage`: descend into `body.json.error.message`. -/
def extractErrorMessage (body : CachedResponseBody) : Option String :=
  match body.json with
  | some j =>
    match j with
    | .obj entries =>
      match objGet entries "error" with
      | some (.obj errEntries) =>
        match objGet errEntries "message" with
        | some (.str m) => some m
        | _ => none
      | _ => none
    | _ => none
  | none => none

/-- Truthiness of an optional JSON field (`undefined` is falsy). -/
def jsOptTruthy (o : Option Json) : Bool :=
  match o with
  | some j => jsTruthy j
  | none => false

/-- Truthiness of an optional string field. -/
def strOptTruthy (o : Option String) : Bool :=
  match o with
  | some t => t ≠ ""
  | none => false

/-- `getResponseSummary` with `maxLen = 500`. -/
def getResponseSummary (body : CachedResponseBody) : String :=
  if jsOptTruthy body.json then
    let str := jsonStringify (body.json.getD .null)
    if str.length > 500 then strTake str 500 ++ "..." else str
  else if strOptTruthy body.text then
    let t := (body.text).getD ""
    if t.length > 500 then strTake t 500 ++ "..." else t
  else ""

/-- JSON serialization of a `CachedResponse` (property order of the object
literal; absent optional fields are omitted as `JSON.stringify` omits
`undefined`). -/
def bodyToJson (b : CachedResponseBody) : Json :=
  .obj ((match b.json with | some j => [("json", j)] | none => []) ++
        (match b.text with | some t => [("text", Json.str t)] | none => []))

def headersToJson (hs : List (String × String)) : Json :=
  .obj (hs.map fun kv => (kv.1, .str kv.2))

def responseToJson (r : CachedResponse) : Json :=
  .obj [("status", .num r.status), ("statusText", .str r.statusText),
        ("headers", headersToJson r.headers), ("body", bodyToJson r.body),
        ("timestamp", .num r.timestamp)]

/-- JSON serialization of a `CacheMeta` record. -/
def metaToJson (m : CacheMeta) : Json :=
  .obj ([("key", .str m.key), ("url", .str m.url), ("method", .str m.method),
         ("model", match m.model with | some s => .str s | none => .null)] ++
        (match m.provider with | some p => [("provider", p)] | none => []) ++
        [("status", .num m.status), ("statusText", .str m.statusText),
         ("timestamp", .num m.timestamp), ("timestampISO", .str m.timestampISO),
         ("responseSummary", .str m.responseSummary), ("success", .bool m.success)] ++
        (match m.errorMessage with | some e => [("errorMessage", .str e)] | none => []) ++
        [("stackTrace", .arr (m.stackTrace.map Json.str))] ++
        (match m.callerFile with | some c => [("callerFile", .str c)] | none => []))

/-! ## Cache store -/

/-- `getCachedResponse`: look up a cache entry; the file-system state is
threaded and returned so the absence of writes is part of the statement.
Both files must exist and parse; any failure inside the `try` yields
`null`. -/
def getCachedResponse (fs : Fs) (url : String) (body : Json) :
    Option (Json × Json) × Fs :=
  let key := getCacheKey url body
  let paths := getCachePaths key
  if ¬ existsFile fs paths.meta ∨ ¬ existsFile fs paths.response then
    (none, fs)
  else
    match readJsonFile fs paths.meta with
    | none => (none, fs)
    | some meta =>
      match readJsonFile fs paths.response with
      | none => (none, fs)
      | some response => (some (meta, response), fs)

/-- `JsonSidecar.writeFile(mainPath, v, { sidecarDir })` with the default
threshold: ensure the sidecar directory exists, write the sidecar files
collected by the replacer, then write the main JSON file. -/
def sidecarWriteFile (fs : Fs) (mainPath : String) (v : Json)
    (sidecarDir : String) : Fs :=
  let fs1 := if ¬ existsDir fs sidecarDir then mkdirDir fs sidecarDir else fs
  let ws := stringifyWrites DEFAULT_THRESHOLD v
  let fs2 := ws.foldl
    (fun st kv => writeFileData st (pathJoin sidecarDir kv.1) (.textData kv.2)) fs1
  writeFileData fs2 mainPath (.jsonData (stringifyTree DEFAULT_THRESHOLD v))

/-- `cacheResponse`: write a complete cache entry under the key's folder.
The ambient stack capture is passed explicitly. -/
def cacheResponse (fs : Fs) (url : String) (requestBody : Json)
    (response : CachedResponse) (stackInfo : StackInfo) : Fs :=
  let key := getCacheKey url requestBody
  let paths := getCachePaths key
  let fs1 := if ¬ existsDir fs paths.folder then mkdirDir fs paths.folder else fs
  let model := extractModel requestBody
  let provider := extractProvider requestBody
  let success : Bool := 200 ≤ response.status && response.status < 300
  let errorMessage := if success then none else extractErrorMessage response.body
  let meta : CacheMeta :=
    { key := key, url := url, method := "POST", model := model,
      provider := provider, status := response.status,
      statusText := response.statusText, timestamp := response.timestamp,
      timestampISO := isoString response.timestamp,
      responseSummary := getResponseSummary response.body,
      success := success, errorMessage := errorMessage,
      stackTrace := stackInfo.frames, callerFile := stackInfo.callerFile }
  let fs2 := writeFileData fs1 paths.meta (.jsonData (metaToJson meta))
  let fs3 := if ¬ existsDir fs2 SIDECAR_DIR then mkdirDir fs2 SIDECAR_DIR else fs2
  let fs4 := sidecarWriteFile fs3 paths.request requestBody SIDECAR_DIR
  sidecarWriteFile fs4 paths.response (responseToJson response) SIDECAR_DIR

/-! ## Caching fetch wrapper -/

/-- The body text of a request, modelled by its `JSON.parse` status:
`empty` is the empty (falsy) string, `parsable j` any text parsing to
`j`, `unparsable s` any other non-empty text. -/
inductive JsBody where
  | empty
  | parsable (j : Json)
  | unparsable (s : String)
deriving Repr, DecidableEq

structure RequestInit where
  method : Option String
  body : Option JsBody
deriving Repr, DecidableEq

/-- A response body text, modelled by its `JSON.parse` status. -/
inductive HttpBody where
  | jsonText (j : Json)
  | rawText (s : String)
deriving Repr, DecidableEq

structure HttpResponse where
  status : Int
  statusText : String
  headers : List (String × String)
  body : HttpBody
deriving Repr, DecidableEq

/-- The underlying HTTP transport (`globalThis.fetch`), deterministic in
the model. -/
def Transport : Type := String → Option RequestInit → HttpResponse

/-- Result of one wrapper invocation: `out = none` models an uncaught
exception, otherwise the response delivered to the caller; `fs` is the
file system after the call and `transportCalls` how many times the real
transport was invoked. -/
structure FetchResult where
  out : Option HttpResponse
  fs : Fs
  transportCalls : Nat

def bodyTextOf : HttpBody → String
  | .jsonText j => jsonStringify j
  | .rawText s => s

/-- `status` field of a cached response tree for the `Response`
constructor (`200` default for absent or non-numeric values). -/
def respStatusOf (r : Json) : Int :=
  match jsGetProp r "status" with
  | some (some (.num n)) => n
  | _ => 200

def respStatusTextOf (r : Json) : String :=
  match jsGetProp r "statusText" with
  | some (some (.str s)) => s
  | some (some v) => jsToString v
  | _ => ""

def respHeadersOf (r : Json) : List (String × String) :=
  match jsGetProp r "headers" with
  | some (some (.obj entries)) => entries.map fun kv =>
      (kv.1, match kv.2 with | .str s => s | v => jsToString v)
  | _ => []

/-- The miss path shared by "no entry" and "entry expired": perform the
real call, capture the body text by cloning, parse it as JSON with a raw
text fallback, persist the entry, and return a reconstructed response
with identical status, status text, headers and body. -/
def cachedFetchMiss (transport : Transport) (stackInfo : StackInfo)
    (now : Nat) (fs : Fs) (input : String) (init : Option RequestInit)
    (requestBody : Json) : FetchResult :=
  let response := transport input init
  let body : CachedResponseBody :=
    match response.body with
    | .jsonText j => { json := some j, text := none }
    | .rawText s => { json := none, text := some s }
  let fs1 := cacheResponse fs input requestBody
    { status := response.status, statusText := response.statusText,
      headers := response.headers, body := body, timestamp := now }
    stackInfo
  { out := some { status := response.status, statusText := response.statusText,
                  headers := response.headers, body := response.body },
    fs := fs1, transportCalls := 1 }

/-- The fetch function produced by `createCachedFetch({enabled, ttlMs})`.
`now` models `Date.now()` and `stackInfo` the ambient stack capture at
invocation time. -/
def cachedFetch (enabled : Bool) (ttlMs : Int) (transport : Transport)
    (stackInfo : StackInfo) (now : Nat) (fs : Fs)
    (input : String) (init : Option RequestInit) : FetchResult :=
  -- if (!enabled || init?.method !== 'POST' || !init.body) return fetch(input, init)
  if !enabled || (match init with
      | none => true
      | some i => decide (i.method ≠ some "POST")) || (match init with
      | none => true
      | some i => decide (i.body = none ∨ i.body = some .empty)) then
    { out := some (transport input init), fs := fs, transportCalls := 1 }
  else
    match (match init with | none => none | some i => i.body) with
    | some (.unparsable _) =>
      -- JSON.parse threw: pass through unmodified
      { out := some (transport input init), fs := fs, transportCalls := 1 }
    | some (.parsable requestBody) =>
      let lookup := getCachedResponse fs input requestBody
      match lookup.1 with
      | some cached =>
        let r := cached.2
        -- const age = Date.now() - cached.response.timestamp
        match jsGetProp r "timestamp" with
        | none => { out := none, fs := lookup.2, transportCalls := 0 }
        | some tsField =>
          let fresh : Bool :=
            match tsField with
            | some (.num t) => (now : Int) - t < ttlMs
            | _ => false
          if fresh then
            match jsGetProp r "body" with
            | none => { out := none, fs := lookup.2, transportCalls := 0 }
            | some none => { out := none, fs := lookup.2, transportCalls := 0 }
            | some (some b) =>
              match jsGetProp b "json" with
              | none => { out := none, fs := lookup.2, transportCalls := 0 }
              | some (some bj) =>
                { out := some { status := respStatusOf r,
                                statusText := respStatusTextOf r,
                                headers := respHeadersOf r,
                                body := .jsonText bj },
                  fs := lookup.2, transportCalls := 0 }
              | some none =>
                let t : String :=
                  match jsGetProp b "text" with
                  | some (some (.str t)) => t
                  | some (some .null) => ""
                  | some (some v) => jsToString v
                  | _ => ""
                { out := some { status := respStatusOf r,
                                statusText := respStatusTextOf r,
                                headers := respHeadersOf r,
                                body := .rawText t },
                  fs := lookup.2, transportCalls := 0 }
          else
            cachedFetchMiss transport stackInfo now lookup.2 input init requestBody
      | none =>
        cachedFetchMiss transport stackInfo now lookup.2 input init requestBody
    | _ =>
      -- unreachable: empty/none bodies were already bypassed
      { out := some (transport input init), fs := fs, transportCalls := 1 }

mutual

/-- `truncateForLog`. -/
def truncateForLog (maxLen : Nat) : Json → Json
  | .str s => if s.length > maxLen then
      .str (strTake s maxLen ++ "... [" ++ toString s.length ++ " chars]")
    else .str s
  | .arr xs => .arr (truncateForLogList maxLen xs)
  | .obj kvs => .obj (truncateForLogObj maxLen kvs)
  | other => other
termination_by structural j => j

def truncateForLogList (maxLen : Nat) : List Json → List Json
  | [] => []
  | x :: xs => truncateForLog maxLen x :: truncateForLogList maxLen xs
termination_by structural l => l

def truncateForLogObj (maxLen : Nat) : List (String × Json) → List (String × Json)
  | [] => []
  | (k, v) :: rest => (k, truncateForLog maxLen v) :: truncateForLogObj maxLen rest
termination_by structural l => l

end

/-! ## Basic lemmas about the string model -/

theorem strMk_data (s : String) : String.mk s.data = s := rfl

theorem strData_append (a b : String) : (a ++ b).data = a.data ++ b.data :=
  String.data_append a b

theorem strEq_of_data (a b : String) (h : a.data = b.data) : a = b :=
  String.ext h

theorem strAppend_ne_of_ne (a x y : String) (h : x ≠ y) : a ++ x ≠ a ++ y := by
  intro he
  apply h
  apply strEq_of_data
  have hd := congrArg String.data he
  rw [strData_append, strData_append] at hd
  exact List.append_cancel_left hd

theorem strNe_of_get (a b : String) (i : Nat) (c₁ c₂ : Char)
    (h₁ : a.data.get? i = some c₁) (h₂ : b.data.get? i = some c₂)
    (hne : c₁ ≠ c₂) : a ≠ b := by
  intro he
  subst he
  rw [h₁] at h₂
  exact hne (Option.some.inj h₂)

theorem strLength_append (a b : String) : (a ++ b).length = a.length + b.length :=
  String.length_append a b

/-! ## First-occurrence lemmas for `firstSubIdx` -/

theorem firstSubIdx_of_isPrefixOf (hay sub : List Char) (h : sub.isPrefixOf hay) :
    firstSubIdx hay sub = some 0 := by
  cases hay with
  | nil =>
    have : sub = [] := by
      cases sub with
      | nil => rfl
      | cons c t => simp [List.isPrefixOf] at h
    simp [firstSubIdx, this]
  | cons c t => simp [firstSubIdx, h]

theorem firstSubIdx_none_not_prefix (hay sub : List Char)
    (h : firstSubIdx hay sub = none) : ∀ m, ¬ sub.isPrefixOf (hay.drop m) := by
  induction hay generalizing sub with
  | nil =>
    intro m hp
    have hsub : sub ≠ [] := by
      intro he
      simp [firstSubIdx, he] at h
    cases sub with
    | nil => exact hsub rfl
    | cons c t => simp [List.isPrefixOf] at hp
  | cons c t ih =>
    intro m hp
    by_cases h0 : sub.isPrefixOf (c :: t)
    · simp [firstSubIdx, h0] at h
    · rw [firstSubIdx] at h
      simp [h0] at h
      cases m with
      | zero => exact h0 (by simpa using hp)
      | succ m' => exact ih sub h m' (by simpa using hp)

theorem firstSubIdx_eq_of_occ (hay sub : List Char) (n : Nat) (hsub : sub ≠ [])
    (hocc : sub.isPrefixOf (hay.drop n))
    (hmin : ∀ m, m < n → ¬ sub.isPrefixOf (hay.drop m)) :
    firstSubIdx hay sub = some n := by
  induction n generalizing hay with
  | zero =>
    rw [List.drop_zero] at hocc
    exact firstSubIdx_of_isPrefixOf hay sub hocc
  | succ n' ih =>
    cases hay with
    | nil =>
      rw [List.drop_nil, List.isPrefixOf_iff_prefix] at hocc
      simp at hocc
      exact absurd hocc hsub
    | cons c t =>
      have h0 : ¬ sub.isPrefixOf (c :: t) := by
        have := hmin 0 (Nat.succ_pos n')
        simpa using this
      rw [firstSubIdx]
      simp only [h0, if_false]
      have ht : firstSubIdx t sub = some n' := by
        apply ih t
        · simpa using hocc
        · intro m hm
          have := hmin (m + 1) (by omega)
          simpa using this
      rw [ht]
      rfl

theorem isPrefixOf_append_left (sub a b : List Char) (h : sub.isPrefixOf (a ++ b))
    (hlen : sub.length ≤ a.length) : sub.isPrefixOf a := by
  rw [List.isPrefixOf_iff_prefix] at h ⊢
  rw [List.prefix_iff_eq_take] at h ⊢
  rw [List.take_append_of_le_length hlen] at h
  exact h

theorem isPrefixOf_get (sub l : List Char) (h : sub.isPrefixOf l) (k : Nat)
    (hk : k < sub.length) : l.get? k = sub.get? k := by
  rw [List.isPrefixOf_iff_prefix, List.prefix_iff_eq_take] at h
  conv_rhs => rw [h]
  rw [List.get?_take hk]

/-- The first occurrence of `sub` in `a ++ sub ++ t` is at `a.length`,
provided `sub` does not occur in `a`, `a` ends with a character not in
`sub`, and `sub` is non-empty. -/
theorem firstSubIdx_append (a sub t : List Char) (hsub : sub ≠ [])
    (hnone : firstSubIdx a sub = none)
    (hlast : ∀ c, a.get? (a.length - 1) = some c → c ∉ sub) :
    firstSubIdx (a ++ sub ++ t) sub = some a.length := by
  apply firstSubIdx_eq_of_occ
  · exact hsub
  · have : (a ++ sub ++ t).drop a.length = sub ++ t := by
      rw [List.append_assoc, List.drop_left]
    rw [this, List.isPrefixOf_iff_prefix]
    exact List.prefix_append sub t
  · intro m hm hpre
    by_cases hcase : m + sub.length ≤ a.length
    · -- the occurrence would lie entirely inside `a`
      have hdrop : (a ++ sub ++ t).drop m = a.drop m ++ (sub ++ t) := by
        rw [List.append_assoc, List.drop_append_of_le_length (by omega)]
      rw [hdrop] at hpre
      have : sub.isPrefixOf (a.drop m) := by
        apply isPrefixOf_append_left _ _ _ hpre
        simp
        omega
      exact firstSubIdx_none_not_prefix a sub hnone m this
    · -- the occurrence would cover the last character of `a`
      have hne : a ≠ [] := by
        intro he
        subst he
        simp at hm
      have hk : a.length - 1 - m < sub.length := by omega
      have hget : ((a ++ sub ++ t).drop m).get? (a.length - 1 - m) =
          (a ++ sub ++ t).get? (a.length - 1) := by
        rw [List.get?_drop]
        congr 1
        omega
      have hgeta : (a ++ sub ++ t).get? (a.length - 1) = a.get? (a.length - 1) := by
        rw [List.append_assoc]
        apply List.get?_append
        have : 0 < a.length := List.length_pos.mpr hne
        omega
      have hlast' : ∃ c, a.get? (a.length - 1) = some c := by
        have : a.length - 1 < a.length := by
          have : 0 < a.length := List.length_pos.mpr hne
          omega
        exact ⟨a.get ⟨a.length - 1, this⟩, List.get?_eq_get this⟩
      obtain ⟨c, hc⟩ := hlast'
      have hsubc : sub.get? (a.length - 1 - m) = some c := by
        rw [← isPrefixOf_get sub _ hpre _ hk, hget, hgeta, hc]
      have : c ∈ sub := List.get?_mem hsubc
      exact hlast c hc this

/-! ## Leaf-level codec lemmas -/

theorem strNe_empty_iff (s : String) : s ≠ "" ↔ s.data ≠ [] := by
  constructor
  · intro h he
    exact h (strEq_of_data s "" he)
  · intro h he
    subst he
    exact h rfl

theorem get_last_append (a b : List Char) (hb : b ≠ []) (c : Char)
    (hc : b.get? (b.length - 1) = some c) :
    (a ++ b).get? ((a ++ b).length - 1) = some c := by
  rw [List.get?_eq_getElem?, ← List.getLast?_eq_getElem?] at hc ⊢
  rw [List.getLast?_append, hc]
  rfl

theorem marker_isPrefixOf_append (h : String) :
    SIDECAR_MARKER.data.isPrefixOf (SIDECAR_MARKER.data ++ h.data) := by
  rw [List.isPrefixOf_iff_prefix]
  exact List.prefix_append _ _

theorem strIndexOf_marker_append (h : String) :
    strIndexOf (SIDECAR_MARKER ++ h) SIDECAR_MARKER = some 0 := by
  rw [strIndexOf, strData_append]
  exact firstSubIdx_of_isPrefixOf _ _ (marker_isPrefixOf_append h)

/-- `hasSidecarRef` of a string starting with the marker. -/
theorem hasSidecarRef_marker_append (h : String) :
    hasSidecarRef (SIDECAR_MARKER ++ h) = true := by
  rw [hasSidecarRef, strIncludes, strIndexOf_marker_append]
  rfl

/-- `extractSidecarHash` of `marker ++ h` is `h`. -/
theorem extract_marker_append (h : String) :
    extractSidecarHash (SIDECAR_MARKER ++ h) = some h := by
  rw [extractSidecarHash, strIndexOf_marker_append]
  have hdrop : (SIDECAR_MARKER ++ h).data.drop (0 + SIDECAR_MARKER.length) = h.data := by
    rw [strData_append]
    have hl : SIDECAR_MARKER.data.length = 0 + SIDECAR_MARKER.length := rfl
    rw [← hl]
    exact List.drop_left _ _
  simp [strDrop, hdrop]

/-- Restoring `marker ++ h` when the sidecar file holds `c` yields `c`. -/
theorem restore_marker_append (store : SideStore) (h c : String)
    (hstore : store (h ++ ".sidecar") = some c) :
    restoreSidecarRef store (SIDECAR_MARKER ++ h) = c := by
  rw [restoreSidecarRef, extract_marker_append]
  simp [hstore, strIndexOf_marker_append]

theorem firstSubIdx_le_length (hay sub : List Char) (i : Nat)
    (h : firstSubIdx hay sub = some i) : i ≤ hay.length := by
  induction hay generalizing i with
  | nil =>
    rw [firstSubIdx] at h
    by_cases hs : sub = [] <;> simp [hs] at h <;> omega
  | cons x t ih =>
    rw [firstSubIdx] at h
    by_cases hp : sub.isPrefixOf (x :: t)
    · simp [hp] at h
      omega
    · simp [hp] at h
      obtain ⟨j, hj, rfl⟩ := h
      have := ih j hj
      simp
      omega

theorem firstSubIdx_some_prefix (hay sub : List Char) (i : Nat)
    (h : firstSubIdx hay sub = some i) : sub.isPrefixOf (hay.drop i) := by
  induction hay generalizing i with
  | nil =>
    rw [firstSubIdx] at h
    by_cases hs : sub = []
    · subst hs
      simp [List.isPrefixOf]
    · simp [hs] at h
  | cons x t ih =>
    rw [firstSubIdx] at h
    by_cases hp : sub.isPrefixOf (x :: t)
    · simp [hp] at h
      subst h
      simpa using hp
    · simp [hp] at h
      obtain ⟨j, hj, rfl⟩ := h
      simpa using ih j hj

/-- No occurrence in `a ++ b` implies no occurrence in `a`. -/
theorem firstSubIdx_none_of_append (a b sub : List Char)
    (h : firstSubIdx (a ++ b) sub = none) : firstSubIdx a sub = none := by
  cases hfa : firstSubIdx a sub with
  | none => rfl
  | some i =>
    exfalso
    have hnotp := firstSubIdx_none_not_prefix _ _ h
    have hocc := firstSubIdx_some_prefix _ _ _ hfa
    have hib := firstSubIdx_le_length _ _ _ hfa
    apply hnotp i
    rw [List.isPrefixOf_iff_prefix] at hocc ⊢
    rw [List.drop_append_of_le_length hib]
    exact hocc.trans (List.prefix_append _ _)

theorem strIndexOf_dataurl (pre h : String)
    (hnm : firstSubIdx pre.data SIDECAR_MARKER.data = none)
    (hlast : pre.data.get? (pre.data.length - 1) = some ',') :
    strIndexOf (pre ++ (SIDECAR_MARKER ++ h)) SIDECAR_MARKER = some pre.length := by
  rw [strIndexOf, strData_append, strData_append, ← List.append_assoc]
  apply firstSubIdx_append
  · decide
  · exact hnm
  · intro c hc hmem
    rw [hlast] at hc
    cases hc
    revert hmem
    decide

theorem extract_dataurl (pre h : String)
    (hnm : firstSubIdx pre.data SIDECAR_MARKER.data = none)
    (hlast : pre.data.get? (pre.data.length - 1) = some ',') :
    extractSidecarHash (pre ++ (SIDECAR_MARKER ++ h)) = some h := by
  rw [extractSidecarHash, strIndexOf_dataurl pre h hnm hlast]
  have hdrop : (pre.data ++ (SIDECAR_MARKER.data ++ h.data)).drop
      (pre.length + SIDECAR_MARKER.length) = h.data := by
    rw [← List.drop_drop]
    have h1 : pre.data.length = pre.length := rfl
    rw [← h1, List.drop_left]
    have h2 : SIDECAR_MARKER.data.length = SIDECAR_MARKER.length := rfl
    rw [← h2, List.drop_left]
  simp only [strDrop, strData_append]
  rw [hdrop]

theorem restore_dataurl (store : SideStore) (pre h c : String)
    (hnm : firstSubIdx pre.data SIDECAR_MARKER.data = none)
    (hne : pre.data ≠ [])
    (hlast : pre.data.get? (pre.data.length - 1) = some ',')
    (hstore : store (h ++ ".sidecar") = some c) :
    restoreSidecarRef store (pre ++ (SIDECAR_MARKER ++ h)) = pre ++ c := by
  rw [restoreSidecarRef, extract_dataurl pre h hnm hlast]
  have hpos : 0 < pre.length := List.length_pos_of_ne_nil hne
  have htake : strTake (pre ++ (SIDECAR_MARKER ++ h)) pre.length = pre := by
    rw [strTake, strData_append]
    rw [List.take_left' (show pre.data.length = pre.length from rfl)]
  simp [hstore, strIndexOf_dataurl pre h hnm hlast, hpos, htake]

/-- `hasSidecarRef` of a data-URL reference. -/
theorem hasSidecarRef_dataurl (pre h : String)
    (hnm : firstSubIdx pre.data SIDECAR_MARKER.data = none)
    (hlast : pre.data.get? (pre.data.length - 1) = some ',') :
    hasSidecarRef (pre ++ (SIDECAR_MARKER ++ h)) = true := by
  rw [hasSidecarRef, strIncludes, strIndexOf_dataurl pre h hnm hlast]
  rfl

/-- Decomposition of a successful `DATA_URL_REGEX` match: the subject
splits as `prefix ++ payload`, and the prefix is non-empty and ends with
`','`. -/
theorem dataUrlMatch_decomp (s pre payload : String)
    (h : dataUrlMatch s = some (pre, payload)) :
    s.data = pre.data ++ payload.data ∧ pre.data ≠ [] ∧
      pre.data.get? (pre.data.length - 1) = some ',' := by
  rw [dataUrlMatch] at h
  split at h
  case _ rest heq =>
    dsimp only [] at h
    split_ifs at h with h1 h2 h3
    -- only the successful branch survives
    simp only [Option.some.injEq, Prod.mk.injEq] at h
    obtain ⟨hpre, hpay⟩ := h
    subst hpre
    subst hpay
    simp only [String.data]
    refine ⟨?_, by simp, ?_⟩
    · rw [heq]
      have hsplit : rest = rest.takeWhile (fun c => c ≠ ';') ++
          rest.dropWhile (fun c => c ≠ ';') :=
        (List.takeWhile_append_dropWhile _ rest).symm
      have hsplit2 : rest.dropWhile (fun c => c ≠ ';') =
          (";base64,").data ++ (rest.dropWhile (fun c => c ≠ ';')).drop 8 := by
        conv_lhs => rw [← List.take_append_drop 8 (rest.dropWhile (fun c => c ≠ ';'))]
        rw [h2]
      conv_lhs => rw [hsplit, hsplit2]
      simp
    · have hshape : 'd' :: 'a' :: 't' :: 'a' :: ':' ::
          (rest.takeWhile (fun c => c ≠ ';') ++ (";base64,").data) =
          (('d' :: 'a' :: 't' :: 'a' :: ':' :: rest.takeWhile (fun c => c ≠ ';')) ++
            (";base64,").data) := by
        simp
      rw [hshape]
      apply get_last_append _ ((";base64,").data) (by decide) ','
      decide
  case _ =>
    simp at h

/-! ## Lemmas about the sidecar write set -/

/-- The filename a leaf string's sidecar would be stored under. -/
def sidecarKeyOf (s : String) : Option String :=
  (extractSidecarHash (processLargeString s).ref).map (· ++ ".sidecar")

/-- One step of the `stringify` replacer's side effects. -/
def writeStep (threshold : Nat) (m : List (String × String)) (s : String) :
    List (String × String) :=
  if s.length > threshold then
    match extractSidecarHash (processLargeString s).ref with
    | some hash => mapSet m (hash ++ ".sidecar") (processLargeString s).content
    | none => m
  else m

theorem stringifyWrites_eq_foldl (threshold : Nat) (v : Json) :
    stringifyWrites threshold v = v.strings.foldl (writeStep threshold) [] := rfl

theorem mapSet_mem (m : List (String × String)) (k v : String) (kv : String × String)
    (h : kv ∈ mapSet m k v) : kv = (k, v) ∨ kv ∈ m := by
  induction m with
  | nil =>
    simp [mapSet] at h
    exact Or.inl h
  | cons hd tl ih =>
    obtain ⟨k', v'⟩ := hd
    rw [mapSet] at h
    by_cases he : k' = k
    · simp [he] at h
      rcases h with h | h
      · exact Or.inl (by simp [h])
      · exact Or.inr (by simp [h])
    · simp [he] at h
      rcases h with h | h
      · exact Or.inr (by simp [h])
      · rcases ih h with h' | h'
        · exact Or.inl h'
        · exact Or.inr (by simp [h'])

theorem mapSet_mem_self (m : List (String × String)) (k v : String) :
    (k, v) ∈ mapSet m k v := by
  induction m with
  | nil => simp [mapSet]
  | cons hd tl ih =>
    obtain ⟨k', v'⟩ := hd
    rw [mapSet]
    by_cases he : k' = k <;> simp [he, ih]

theorem mapSet_mem_preserve (m : List (String × String)) (k v : String)
    (kv : String × String) (hm : kv ∈ m) (hk : kv.1 = k → kv.2 = v) :
    kv ∈ mapSet m k v := by
  induction m with
  | nil => simp at hm
  | cons hd tl ih =>
    obtain ⟨k', v'⟩ := hd
    rw [mapSet]
    rcases List.mem_cons.mp hm with hm | hm
    · subst hm
      by_cases he : k' = k
      · have h2 : v' = v := hk (by simp [he])
        simp [he, h2]
      · simp [he]
    · by_cases he : k' = k
      · simp [he, hm]
      · simp [he, ih hm]

theorem writeStep_mem (threshold : Nat) (m : List (String × String)) (s : String)
    (kv : String × String) (h : kv ∈ writeStep threshold m s) :
    kv ∈ m ∨ (s.length > threshold ∧ sidecarKeyOf s = some kv.1 ∧
      kv.2 = (processLargeString s).content) := by
  rw [writeStep] at h
  by_cases hl : s.length > threshold
  · simp only [hl, if_true, if_pos] at h
    cases hex : extractSidecarHash (processLargeString s).ref with
    | none => rw [hex] at h; exact Or.inl h
    | some hash =>
      rw [hex] at h
      rcases mapSet_mem _ _ _ _ h with h' | h'
      · subst h'
        exact Or.inr ⟨hl, by simp [sidecarKeyOf, hex], rfl⟩
      · exact Or.inl h'
  · simp only [hl, if_false, if_neg] at h
    exact Or.inl h

theorem foldl_writeStep_mem (threshold : Nat) (ss : List String) :
    ∀ (acc : List (String × String)) (kv : String × String),
      kv ∈ ss.foldl (writeStep threshold) acc →
      kv ∈ acc ∨ ∃ s ∈ ss, s.length > threshold ∧ sidecarKeyOf s = some kv.1 ∧
        kv.2 = (processLargeString s).content := by
  induction ss with
  | nil =>
    intro acc kv h
    exact Or.inl h
  | cons s₀ tl ih =>
    intro acc kv h
    rw [List.foldl_cons] at h
    rcases ih (writeStep threshold acc s₀) kv h with h' | h'
    · rcases writeStep_mem _ _ _ _ h' with h'' | h''
      · exact Or.inl h''
      · exact Or.inr ⟨s₀, by simp, h''.1, h''.2.1, h''.2.2⟩
    · obtain ⟨s, hs, h1, h2, h3⟩ := h'
      exact Or.inr ⟨s, by simp [hs], h1, h2, h3⟩

theorem foldl_writeStep_preserve (threshold : Nat) (ss : List String) :
    ∀ (acc : List (String × String)) (k c : String), (k, c) ∈ acc →
      (∀ s ∈ ss, s.length > threshold → sidecarKeyOf s = some k →
        (processLargeString s).content = c) →
      (k, c) ∈ ss.foldl (writeStep threshold) acc := by
  induction ss with
  | nil =>
    intro acc k c hacc _
    exact hacc
  | cons s₀ tl ih =>
    intro acc k c hacc huniq
    rw [List.foldl_cons]
    apply ih
    · rw [writeStep]
      by_cases hl : s₀.length > threshold
      · simp only [hl, if_true, if_pos]
        cases hex : extractSidecarHash (processLargeString s₀).ref with
        | none => exact hacc
        | some hash =>
          apply mapSet_mem_preserve _ _ _ _ hacc
          intro hk
          simp at hk
          have := huniq s₀ (by simp) hl (by simp [sidecarKeyOf, hex, hk])
          simp [this]
      · simp only [hl, if_false, if_neg]
        exact hacc
    · intro s hs h1 h2
      exact huniq s (by simp [hs]) h1 h2

theorem foldl_writeStep_insert (threshold : Nat) (ss : List String) :
    ∀ (acc : List (String × String)) (s k : String), s ∈ ss →
      s.length > threshold → sidecarKeyOf s = some k →
      (∀ s' ∈ ss, s'.length > threshold → sidecarKeyOf s' = some k →
        (processLargeString s').content = (processLargeString s).content) →
      (k, (processLargeString s).content) ∈ ss.foldl (writeStep threshold) acc := by
  induction ss with
  | nil =>
    intro acc s k hs
    simp at hs
  | cons s₀ tl ih =>
    intro acc s k hs hl hk huniq
    rw [List.foldl_cons]
    rcases List.mem_cons.mp hs with he | htl
    · subst he
      apply foldl_writeStep_preserve
      · rw [writeStep]
        simp only [hl, if_true, if_pos]
        rw [sidecarKeyOf] at hk
        cases hex : extractSidecarHash (processLargeString s).ref with
        | none => simp [hex] at hk
        | some hash =>
          simp [hex] at hk
          subst hk
          exact mapSet_mem_self _ _ _
      · intro s' hs' h1 h2
        exact huniq s' (by simp [hs']) h1 h2
    · exact ih (writeStep threshold acc s₀) s k htl hl hk
        (fun s' hs' => huniq s' (by simp [hs']))

/-! ## Lemmas about `applyWrites` -/

theorem applyWrites_cons (st : SideStore) (kv : String × String)
    (tl : List (String × String)) :
    applyWrites st (kv :: tl) =
      applyWrites (fun p => if p = kv.1 then some kv.2 else st p) tl := rfl

theorem applyWrites_some (st : SideStore) (ws : List (String × String))
    (p c : String) (h : applyWrites st ws p = some c) :
    (p, c) ∈ ws ∨ st p = some c := by
  induction ws generalizing st with
  | nil => exact Or.inr h
  | cons kv tl ih =>
    rw [applyWrites_cons] at h
    rcases ih _ h with h' | h'
    · exact Or.inl (by simp [h'])
    · by_cases he : p = kv.1
      · simp [he] at h'
        subst he
        exact Or.inl (by rw [← h']; simp)
      · simp [he] at h'
        exact Or.inr h'

theorem applyWrites_eq_of_mem (st : SideStore) (ws : List (String × String))
    (p c : String) (hmem : (p, c) ∈ ws ∨ st p = some c)
    (huniq : ∀ kv ∈ ws, kv.1 = p → kv.2 = c) :
    applyWrites st ws p = some c := by
  induction ws generalizing st with
  | nil =>
    rcases hmem with h | h
    · simp at h
    · exact h
  | cons kv tl ih =>
    rw [applyWrites_cons]
    apply ih
    · by_cases he : p = kv.1
      · right
        have : kv.2 = c := huniq kv (by simp) he.symm
        simp [he, this]
      · rcases hmem with h | h
        · rcases List.mem_cons.mp h with h' | h'
          · have hfst := congrArg Prod.fst h'
            simp at hfst
            exact absurd hfst he
          · exact Or.inl h'
        · right
          simp [he]
          exact h
    · intro kv' hkv' hk
      exact huniq kv' (by simp [hkv']) hk

theorem applyWrites_none_of_not_mem (st : SideStore) (ws : List (String × String))
    (p : String) (hnm : ∀ kv ∈ ws, kv.1 ≠ p) :
    applyWrites st ws p = st p := by
  induction ws generalizing st with
  | nil => rfl
  | cons kv tl ih =>
    rw [applyWrites_cons]
    rw [ih _ (fun kv' h => hnm kv' (by simp [h]))]
    have hne : p ≠ kv.1 := fun h => hnm kv (by simp) h.symm
    simp [hne]

/-! ## Composition lemmas for leaf maps -/

theorem Json.mapStr_mapStr (f g : String → String) (v : Json) :
    (v.mapStr f).mapStr g = v.mapStr (fun s => g (f s)) := by
  induction v using Json.recOnLeaves with
  | hnull => simp
  | hbool b => simp
  | hnum n => simp
  | hstr s => simp
  | harr xs ih =>
    simp only [Json.mapStr_arr, List.map_map]
    congr 1
    apply List.map_congr_left
    intro x hx
    exact ih x hx
  | hobj kvs ih =>
    simp only [Json.mapStr_obj, List.map_map]
    congr 1
    apply List.map_congr_left
    intro kv hkv
    simp only [Function.comp]
    rw [ih kv hkv]

theorem Json.mapStr_eq_self (f : String → String) (v : Json)
    (h : ∀ s ∈ v.strings, f s = s) : v.mapStr f = v := by
  induction v using Json.recOnLeaves with
  | hnull => simp
  | hbool b => simp
  | hnum n => simp
  | hstr s => simp [h s (by simp)]
  | harr xs ih =>
    simp only [Json.mapStr_arr]
    have : xs.map (Json.mapStr f) = xs.map id := by
      apply List.map_congr_left
      intro x hx
      rw [ih x hx]
      · rfl
      · intro s hs
        apply h
        simp only [Json.strings_arr, List.mem_flatMap]
        exact ⟨x, hx, hs⟩
    simp [this]
  | hobj kvs ih =>
    simp only [Json.mapStr_obj]
    have : (kvs.map fun kv => (kv.1, Json.mapStr f kv.2)) = kvs.map id := by
      apply List.map_congr_left
      intro kv hkv
      rw [ih kv hkv]
      · rfl
      · intro s hs
        apply h
        simp only [Json.strings_obj, List.mem_flatMap]
        exact ⟨kv, hkv, hs⟩
    simp [this]

/-! ## Key structure of sidecar writes -/

theorem strIncludes_false_iff (s : String) :
    strIncludes s SIDECAR_MARKER = false ↔
      firstSubIdx s.data SIDECAR_MARKER.data = none := by
  rw [strIncludes, strIndexOf]
  cases firstSubIdx s.data SIDECAR_MARKER.data <;> simp

theorem strAppend_cancel_right (a b x : String) (h : a ++ x = b ++ x) : a = b := by
  apply strEq_of_data
  have hd := congrArg String.data h
  rw [strData_append, strData_append] at hd
  exact List.append_cancel_right hd

theorem processLargeString_plain (s : String) (hd : dataUrlMatch s = none) :
    processLargeString s =
      { ref := SIDECAR_MARKER ++ hashValue s, content := s } := by
  rw [processLargeString, hd]
  rfl

theorem processLargeString_dataurl (s pre payload : String)
    (hd : dataUrlMatch s = some (pre, payload)) :
    processLargeString s =
      { ref := pre ++ (SIDECAR_MARKER ++ hashValue payload), content := payload } := by
  rw [processLargeString, hd]
  rfl

/-- The prefix captured from a marker-free string is marker-free. -/
theorem dataurl_pre_marker_free (s pre payload : String)
    (hd : dataUrlMatch s = some (pre, payload))
    (hnm : strIncludes s SIDECAR_MARKER = false) :
    firstSubIdx pre.data SIDECAR_MARKER.data = none := by
  have hs_nm := (strIncludes_false_iff s).mp hnm
  have hdec := dataUrlMatch_decomp s pre payload hd
  rw [hdec.1] at hs_nm
  exact firstSubIdx_none_of_append _ _ _ hs_nm

/-- For a marker-free leaf, the sidecar filename is the content hash plus
the `.sidecar` extension. -/
theorem sidecarKeyOf_clean (s : String)
    (hnm : strIncludes s SIDECAR_MARKER = false) :
    sidecarKeyOf s =
      some (hashValue (processLargeString s).content ++ ".sidecar") := by
  cases hd : dataUrlMatch s with
  | none =>
    rw [sidecarKeyOf, processLargeString_plain s hd]
    simp [extract_marker_append]
  | some pp =>
    obtain ⟨pre, payload⟩ := pp
    have hdec := dataUrlMatch_decomp s pre payload hd
    have hp_nm := dataurl_pre_marker_free s pre payload hd hnm
    rw [sidecarKeyOf, processLargeString_dataurl s pre payload hd]
    simp [extract_dataurl pre _ hp_nm hdec.2.2]

/-- After `stringify`, the sidecar directory holds each externalized
content under its content hash (assuming no truncated-hash collision
among the value's externalized contents). -/
theorem stringify_store_content (t : Nat) (v : Json) (st₀ : SideStore)
    (hnm : ∀ s' ∈ v.strings, strIncludes s' SIDECAR_MARKER = false)
    (hinj : ∀ s₁ ∈ v.strings, ∀ s₂ ∈ v.strings, s₁.length > t → s₂.length > t →
      hashValue (processLargeString s₁).content =
        hashValue (processLargeString s₂).content →
      (processLargeString s₁).content = (processLargeString s₂).content)
    (s : String) (hs : s ∈ v.strings) (hl : s.length > t) :
    applyWrites st₀ (stringifyWrites t v)
      (hashValue (processLargeString s).content ++ ".sidecar") =
      some (processLargeString s).content := by
  apply applyWrites_eq_of_mem
  · left
    rw [stringifyWrites_eq_foldl]
    apply foldl_writeStep_insert t v.strings [] s _ hs hl (sidecarKeyOf_clean s (hnm s hs))
    intro s' hs' hl' hk'
    rw [sidecarKeyOf_clean s' (hnm s' hs')] at hk'
    simp only [Option.some.injEq] at hk'
    exact hinj s' hs' s hs hl' hl (strAppend_cancel_right _ _ _ hk')
  · intro kv hkv hk
    rw [stringifyWrites_eq_foldl] at hkv
    rcases foldl_writeStep_mem t v.strings [] kv hkv with h | h
    · simp at h
    · obtain ⟨s', hs', hl', hk', hc'⟩ := h
      rw [sidecarKeyOf_clean s' (hnm s' hs')] at hk'
      simp only [Option.some.injEq] at hk'
      rw [hc']
      apply hinj s' hs' s hs hl' hl
      apply strAppend_cancel_right _ _ ".sidecar"
      rw [hk', hk]

/-- Per-leaf round trip: under the written store, reviving the replaced
leaf gives back the original. -/
theorem revive_replace_leaf (t : Nat) (v : Json) (st₀ : SideStore)
    (hnm : ∀ s' ∈ v.strings, strIncludes s' SIDECAR_MARKER = false)
    (hinj : ∀ s₁ ∈ v.strings, ∀ s₂ ∈ v.strings, s₁.length > t → s₂.length > t →
      hashValue (processLargeString s₁).content =
        hashValue (processLargeString s₂).content →
      (processLargeString s₁).content = (processLargeString s₂).content) :
    ∀ s ∈ v.strings,
      reviveLeaf (applyWrites st₀ (stringifyWrites t v)) (replaceLeaf t s) = s := by
  intro s hs
  by_cases hl : s.length > t
  · rw [replaceLeaf, if_pos hl]
    have hstore := stringify_store_content t v st₀ hnm hinj s hs hl
    cases hd : dataUrlMatch s with
    | none =>
      rw [processLargeString_plain s hd] at hstore ⊢
      rw [reviveLeaf, if_pos (hasSidecarRef_marker_append _)]
      exact restore_marker_append _ _ _ hstore
    | some pp =>
      obtain ⟨pre, payload⟩ := pp
      have hdec := dataUrlMatch_decomp s pre payload hd
      have hp_nm := dataurl_pre_marker_free s pre payload hd (hnm s hs)
      rw [processLargeString_dataurl s pre payload hd] at hstore ⊢
      rw [reviveLeaf, if_pos (hasSidecarRef_dataurl pre _ hp_nm hdec.2.2)]
      rw [restore_dataurl _ pre _ payload hp_nm hdec.2.1 hdec.2.2 hstore]
      apply strEq_of_data
      rw [strData_append]
      exact hdec.1.symm
  · rw [replaceLeaf, if_neg hl, reviveLeaf]
    have : hasSidecarRef s = false := by
      rw [hasSidecarRef]
      exact hnm s hs
    simp [this]

/-- Round trip of the sidecar codec over any base store, for values whose
string leaves are marker-free, assuming no truncated-hash collision among
externalized contents. -/
theorem sidecar_roundTrip (t : Nat) (v : Json) (st₀ : SideStore)
    (hnm : ∀ s' ∈ v.strings, strIncludes s' SIDECAR_MARKER = false)
    (hinj : ∀ s₁ ∈ v.strings, ∀ s₂ ∈ v.strings, s₁.length > t → s₂.length > t →
      hashValue (processLargeString s₁).content =
        hashValue (processLargeString s₂).content →
      (processLargeString s₁).content = (processLargeString s₂).content) :
    parseTree (applyWrites st₀ (stringifyWrites t v)) (stringifyTree t v) = v := by
  rw [parseTree, stringifyTree, Json.mapStr_mapStr]
  exact Json.mapStr_eq_self _ v (revive_replace_leaf t v st₀ hnm hinj)

/-! ## Additional helper lemmas for the claims -/

theorem hasSidecarRef_of_extract (s h : String)
    (hex : extractSidecarHash s = some h) : hasSidecarRef s = true := by
  rw [extractSidecarHash] at hex
  rw [hasSidecarRef, strIncludes]
  cases hidx : strIndexOf s SIDECAR_MARKER with
  | none => rw [hidx] at hex; exact absurd hex (by simp)
  | some i => simp

theorem extract_ref_isSome (s : String) :
    ∃ h, extractSidecarHash (processLargeString s).ref = some h := by
  cases hd : dataUrlMatch s with
  | none =>
    rw [processLargeString_plain s hd]
    exact ⟨_, extract_marker_append _⟩
  | some pp =>
    obtain ⟨pre, payload⟩ := pp
    rw [processLargeString_dataurl s pre payload hd]
    rw [extractSidecarHash]
    cases hidx : strIndexOf (pre ++ (SIDECAR_MARKER ++ hashValue payload)) SIDECAR_MARKER with
    | none =>
      exfalso
      rw [strIndexOf, strData_append, strData_append] at hidx
      have hnp := firstSubIdx_none_not_prefix _ _ hidx pre.data.length
      apply hnp
      rw [List.drop_left, List.isPrefixOf_iff_prefix]
      exact List.prefix_append _ _
    | some i => exact ⟨_, rfl⟩

theorem readJsonFile_none_of_missing (fs : Fs) (p : String)
    (h : fs.files p = none) : readJsonFile fs p = none := by
  rw [readJsonFile, h]

theorem readJsonFile_some_exists (fs : Fs) (p : String) (j : Json)
    (h : readJsonFile fs p = some j) : fs.files p = some (.jsonData j) := by
  rw [readJsonFile] at h
  cases hf : fs.files p with
  | none => rw [hf] at h; exact absurd h (by simp)
  | some d =>
    cases d with
    | jsonData j' =>
      rw [hf] at h
      simp at h
      rw [h]
    | textData s => rw [hf] at h; exact absurd h (by simp)

/-- Characterization of the cache lookup result. -/
theorem getCachedResponse_eq (fs : Fs) (url : String) (body : Json) :
    (getCachedResponse fs url body).1 =
      (match readJsonFile fs (getCachePaths (getCacheKey url body)).meta,
             readJsonFile fs (getCachePaths (getCacheKey url body)).response with
       | some m, some r => some (m, r)
       | _, _ => none) := by
  rw [getCachedResponse]
  by_cases h1 : existsFile fs (getCachePaths (getCacheKey url body)).meta
  · by_cases h2 : existsFile fs (getCachePaths (getCacheKey url body)).response
    · rw [if_neg (by simp [h1, h2])]
      cases readJsonFile fs (getCachePaths (getCacheKey url body)).meta <;>
        cases readJsonFile fs (getCachePaths (getCacheKey url body)).response <;> rfl
    · rw [if_pos (by simp [h1, h2])]
      have : readJsonFile fs (getCachePaths (getCacheKey url body)).response = none := by
        apply readJsonFile_none_of_missing
        rw [existsFile] at h2
        simpa using h2
      rw [this]
      cases readJsonFile fs (getCachePaths (getCacheKey url body)).meta <;> rfl
  · rw [if_pos (by simp [h1])]
    have : readJsonFile fs (getCachePaths (getCacheKey url body)).meta = none := by
      apply readJsonFile_none_of_missing
      rw [existsFile] at h1
      simpa using h1
    rw [this]

/-! ## Claim theorems -/

/-- C5: a leaf string of exactly `threshold` characters is left inline by
the encoder and writes no sidecar file, a leaf string of `threshold + 1`
characters is replaced by its reference and writes a sidecar, and the
check applies per leaf string uniformly under array nesting and object
keys. -/
theorem claim_C5_threshold (t : Nat) (s : String) :
    (s.length = t →
      replaceLeaf t s = s ∧ stringifyWrites t (Json.str s) = []) ∧
    (s.length = t + 1 →
      replaceLeaf t s = (processLargeString s).ref ∧
      stringifyTree t (Json.str s) = Json.str (processLargeString s).ref ∧
      stringifyWrites t (Json.str s) ≠ []) ∧
    (∀ (k : String) (w : Json),
      stringifyTree t (Json.obj [(k, w)]) = Json.obj [(k, stringifyTree t w)] ∧
      stringifyTree t (Json.arr [w]) = Json.arr [stringifyTree t w]) := by
  refine ⟨?_, ?_, ?_⟩
  · intro hl
    have hng : ¬ s.length > t := by omega
    constructor
    · rw [replaceLeaf, if_neg hng]
    · rw [stringifyWrites_eq_foldl]
      simp only [Json.strings_str, List.foldl_cons, List.foldl_nil]
      rw [writeStep, if_neg hng]
  · intro hl
    have hg : s.length > t := by omega
    refine ⟨by rw [replaceLeaf, if_pos hg], ?_, ?_⟩
    · rw [stringifyTree, Json.mapStr_str, replaceLeaf, if_pos hg]
    · rw [stringifyWrites_eq_foldl]
      simp only [Json.strings_str, List.foldl_cons, List.foldl_nil]
      rw [writeStep, if_pos hg]
      obtain ⟨h, hex⟩ := extract_ref_isSome s
      rw [hex]
      simp [mapSet]
  · intro k w
    constructor
    · rw [stringifyTree, Json.mapStr_obj]
      rfl
    · rw [stringifyTree, Json.mapStr_arr]
      rfl

/-- Witness for C5 at threshold 3 with concrete strings. -/
theorem claim_C5_threshold_witness :
    (replaceLeaf 3 "abc" = "abc" ∧ stringifyWrites 3 (Json.str "abc") = []) ∧
    (replaceLeaf 3 "abcd" = (processLargeString "abcd").ref ∧
      stringifyTree 3 (Json.str "abcd") = Json.str (processLargeString "abcd").ref ∧
      stringifyWrites 3 (Json.str "abcd") ≠ []) :=
  ⟨(claim_C5_threshold 3 "abc").1 (by decide),
   (claim_C5_threshold 3 "abcd").2.1 (by decide)⟩

/-- C6: when a referenced sidecar file is missing, decoding does not
fail: a warning is emitted, the affected field keeps the unresolved
placeholder unchanged, sibling fields are still decoded, and
`hasUnresolvedRefs` reports `true` on the result. -/
theorem claim_C6_missing_sidecar (store : SideStore) (s h k₁ k₂ : String) (w : Json)
    (hex : extractSidecarHash s = some h)
    (hmiss : store (h ++ ".sidecar") = none) :
    restoreSidecarRef store s = s ∧
    restoreWarns store s = true ∧
    parseTree store (Json.obj [(k₁, Json.str s), (k₂, w)]) =
      Json.obj [(k₁, Json.str s), (k₂, parseTree store w)] ∧
    hasUnresolvedRefs (parseTree store (Json.obj [(k₁, Json.str s), (k₂, w)])) = true := by
  have hres : restoreSidecarRef store s = s := by
    rw [restoreSidecarRef, hex]
    simp [hmiss]
  have hrev : reviveLeaf store s = s := by
    rw [reviveLeaf, if_pos (hasSidecarRef_of_extract s h hex), hres]
  refine ⟨hres, ?_, ?_, ?_⟩
  · rw [restoreWarns, hex]
    simp [hmiss]
  · rw [parseTree, Json.mapStr_obj]
    simp [hrev, parseTree]
  · rw [parseTree, Json.mapStr_obj]
    simp only [List.map_cons, List.map_nil, Json.mapStr_str, hrev]
    rw [hasUnresolvedRefs, hasUnresolvedRefsObj, hasUnresolvedRefs,
      hasSidecarRef_of_extract s h hex]
    rfl

/-- Witness for C6 with an empty sidecar directory. -/
theorem claim_C6_missing_sidecar_witness :
    restoreSidecarRef (fun _ => none) "__SIDECAR__:abcd" = "__SIDECAR__:abcd" ∧
    restoreWarns (fun _ => none) "__SIDECAR__:abcd" = true ∧
    parseTree (fun _ => none)
        (Json.obj [("a", Json.str "__SIDECAR__:abcd"), ("b", Json.num 1)]) =
      Json.obj [("a", Json.str "__SIDECAR__:abcd"),
        ("b", parseTree (fun _ => none) (Json.num 1))] ∧
    hasUnresolvedRefs (parseTree (fun _ => none)
        (Json.obj [("a", Json.str "__SIDECAR__:abcd"), ("b", Json.num 1)])) = true :=
  claim_C6_missing_sidecar (fun _ => none) "__SIDECAR__:abcd" "abcd" "a" "b"
    (Json.num 1) (by decide) rfl

/-- C7: the lookup reports absent whenever the metadata or response file
is missing or fails to parse, and returns a pair exactly when both files
parse. -/
theorem claim_C7_lookup_absent (fs : Fs) (url : String) (body : Json) :
    ((fs.files (getCachePaths (getCacheKey url body)).meta = none ∨
      fs.files (getCachePaths (getCacheKey url body)).response = none ∨
      readJsonFile fs (getCachePaths (getCacheKey url body)).meta = none ∨
      readJsonFile fs (getCachePaths (getCacheKey url body)).response = none) →
      (getCachedResponse fs url body).1 = none) ∧
    (∀ m r, (getCachedResponse fs url body).1 = some (m, r) ↔
      (readJsonFile fs (getCachePaths (getCacheKey url body)).meta = some m ∧
       readJsonFile fs (getCachePaths (getCacheKey url body)).response = some r)) := by
  constructor
  · intro hcase
    rw [getCachedResponse_eq]
    rcases hcase with h | h | h | h
    · rw [readJsonFile_none_of_missing fs _ h]
    · rw [readJsonFile_none_of_missing fs _ h]
      cases readJsonFile fs (getCachePaths (getCacheKey url body)).meta <;> rfl
    · rw [h]
    · rw [h]
      cases readJsonFile fs (getCachePaths (getCacheKey url body)).meta <;> rfl
  · intro m r
    rw [getCachedResponse_eq]
    cases h1 : readJsonFile fs (getCachePaths (getCacheKey url body)).meta <;>
      cases h2 : readJsonFile fs (getCachePaths (getCacheKey url body)).response <;>
        simp

/-- Witness for C7 on the empty file system. -/
theorem claim_C7_lookup_absent_witness :
    (getCachedResponse Fs.empty "https://example/api" (Json.obj []) ).1 = none :=
  (claim_C7_lookup_absent Fs.empty "https://example/api" (Json.obj [])).1
    (Or.inl rfl)

/-- C10: the cache lookup never changes the file system: no folder
creation, no file writes, whatever the state contains. -/
theorem claim_C10_lookup_readonly (fs : Fs) (url : String) (body : Json) :
    (getCachedResponse fs url body).2 = fs := by
  rw [getCachedResponse]
  by_cases h : ¬ existsFile fs (getCachePaths (getCacheKey url body)).meta ∨
      ¬ existsFile fs (getCachePaths (getCacheKey url body)).response
  · rw [if_pos h]
  · rw [if_neg h]
    cases readJsonFile fs (getCachePaths (getCacheKey url body)).meta <;>
      [rfl; cases readJsonFile fs (getCachePaths (getCacheKey url body)).response <;> rfl]

/-! ## Construction of `DATA_URL_REGEX` matches -/

theorem takeWhile_all_append (p : Char → Bool) (a b : List Char)
    (ha : ∀ c ∈ a, p c = true) :
    (a ++ b).takeWhile p = a ++ b.takeWhile p := by
  induction a with
  | nil => simp
  | cons x t ih =>
    rw [List.cons_append, List.takeWhile_cons, ha x (by simp), if_pos rfl,
      ih (fun c hc => ha c (by simp [hc]))]
    rfl

theorem dropWhile_all_append (p : Char → Bool) (a b : List Char)
    (ha : ∀ c ∈ a, p c = true) :
    (a ++ b).dropWhile p = b.dropWhile p := by
  induction a with
  | nil => simp
  | cons x t ih =>
    rw [List.cons_append, List.dropWhile_cons, ha x (by simp), if_pos rfl,
      ih (fun c hc => ha c (by simp [hc]))]

/-- A well-shaped data URL (non-empty media type without `;`, non-empty
payload without line terminators) matches the regex, capturing the prefix
and the payload. -/
theorem dataUrlMatch_eq (mt X : String) (hmt : mt.data ≠ [])
    (hsemi : ∀ c ∈ mt.data, c ≠ ';')
    (hX : X.data ≠ []) (hXl : ∀ c ∈ X.data, isLineTerm c = false) :
    dataUrlMatch ("data:" ++ mt ++ ";base64," ++ X) =
      some ("data:" ++ mt ++ ";base64,", X) := by
  have hdata : ("data:" ++ mt ++ ";base64," ++ X).data =
      'd' :: 'a' :: 't' :: 'a' :: ':' :: (mt.data ++ ((";base64,").data ++ X.data)) := by
    rw [strData_append, strData_append, strData_append]
    rw [show ("data:" : String).data = ['d', 'a', 't', 'a', ':'] from rfl]
    simp
  have hp : ∀ c ∈ mt.data, (fun c => decide (c ≠ ';')) c = true := by
    intro c hc
    simp [hsemi c hc]
  have htw : (mt.data ++ ((";base64,").data ++ X.data)).takeWhile
      (fun c => decide (c ≠ ';')) = mt.data := by
    rw [takeWhile_all_append _ _ _ hp]
    rw [show ((";base64,") : String).data =
      ';' :: ('b' :: 'a' :: 's' :: 'e' :: '6' :: '4' :: [',']) from rfl]
    rw [List.cons_append, List.takeWhile_cons]
    simp
  have hdw : (mt.data ++ ((";base64,").data ++ X.data)).dropWhile
      (fun c => decide (c ≠ ';')) = (";base64,").data ++ X.data := by
    rw [dropWhile_all_append _ _ _ hp]
    rw [show ((";base64,") : String).data =
      ';' :: ('b' :: 'a' :: 's' :: 'e' :: '6' :: '4' :: [',']) from rfl]
    rw [List.cons_append, List.dropWhile_cons]
    simp
  have hcond : (decide (X.data ≠ []) &&
      X.data.all fun c => decide ¬ isLineTerm c = true) = true := by
    simp only [Bool.and_eq_true, decide_eq_true_eq, List.all_eq_true]
    exact ⟨hX, fun c hc => by simp [hXl c hc]⟩
  rw [dataUrlMatch, hdata]
  split
  · rename_i rest heq
    have hrest : mt.data ++ ((";base64,").data ++ X.data) = rest := by
      simpa using heq
    subst hrest
    rw [htw, hdw, if_neg hmt]
    rw [List.take_append_of_le_length
      (by rw [show ((";base64,") : String).data.length = 8 from rfl])]
    rw [show ((";base64,") : String).data.take 8 = ((";base64,") : String).data from rfl]
    rw [if_pos rfl]
    rw [List.drop_left' (show ((";base64,") : String).data.length = 8 from rfl)]
    rw [if_pos hcond]
    have hfst : String.mk ('d' :: 'a' :: 't' :: 'a' :: ':' ::
        (mt.data ++ (";base64,").data)) = "data:" ++ mt ++ ";base64," := by
      apply strEq_of_data
      rw [strData_append, strData_append]
      rw [show ("data:" : String).data = ['d', 'a', 't', 'a', ':'] from rfl]
      simp
    congr 1
  · rename_i a hne
    exact absurd rfl (hne (mt.data ++ ((";base64,").data ++ X.data)))

/-- C2 (amended): the round trip `parse ∘ stringify` over the same
sidecar directory restores the value exactly, for every threshold, every
value whose string leaves do not contain the sidecar marker, and every
pre-existing directory content, assuming no truncated-hash collision
among the value's externalized contents. -/
theorem claim_C2_roundtrip (t : Nat) (v : Json) (st₀ : SideStore)
    (hnm : ∀ s' ∈ v.strings, strIncludes s' SIDECAR_MARKER = false)
    (hinj : ∀ s₁ ∈ v.strings, ∀ s₂ ∈ v.strings, s₁.length > t → s₂.length > t →
      hashValue (processLargeString s₁).content =
        hashValue (processLargeString s₂).content →
      (processLargeString s₁).content = (processLargeString s₂).content) :
    parseTree (applyWrites st₀ (stringifyWrites t v)) (stringifyTree t v) = v :=
  sidecar_roundTrip t v st₀ hnm hinj

/-- Witness for C2: a value with a deduplicated repeated long string and
a short string, with no sidecars pre-existing. -/
theorem claim_C2_roundtrip_witness :
    parseTree
        (applyWrites (fun _ => none)
          (stringifyWrites 4 (Json.arr [Json.str "abcdefgh", Json.str "abcdefgh",
            Json.str "xy"])))
        (stringifyTree 4 (Json.arr [Json.str "abcdefgh", Json.str "abcdefgh",
          Json.str "xy"])) =
      Json.arr [Json.str "abcdefgh", Json.str "abcdefgh", Json.str "xy"] :=
  claim_C2_roundtrip 4
    (Json.arr [Json.str "abcdefgh", Json.str "abcdefgh", Json.str "xy"])
    (fun _ => none) (by decide) (by decide)

/-- Counterexample to C2 as universally stated: a value containing a
short string leaf equal to a sidecar reference of a long leaf of the same
value does not survive the round trip (the in-band marker is rehydrated
as well). -/
theorem claim_C2_counterexample :
    parseTree
        (applyWrites (fun _ => none)
          (stringifyWrites 24 (Json.arr [Json.str "abcdefghijklmnopqrstuvwxy",
            Json.str (SIDECAR_MARKER ++ hashValue "abcdefghijklmnopqrstuvwxy")])))
        (stringifyTree 24 (Json.arr [Json.str "abcdefghijklmnopqrstuvwxy",
          Json.str (SIDECAR_MARKER ++ hashValue "abcdefghijklmnopqrstuvwxy")])) ≠
      Json.arr [Json.str "abcdefghijklmnopqrstuvwxy",
        Json.str (SIDECAR_MARKER ++ hashValue "abcdefghijklmnopqrstuvwxy")] := by
  decide

/-- C3 (amended): the cache key is the first 16 hex characters of the
SHA-256 digest of the UTF-8 bytes of the url followed by the UTF-8 bytes
of the JSON serialization of the normalized body; for every non-array
body the normalization is the identity (so the key is the digest over
`JSON.stringify(body)` itself), while an array body is first converted to
an object keyed by decimal indices. -/
theorem claim_C3_key (url : String) (body : Json) :
    getCacheKey url body =
      strTake (sha256Hex (utf8 url ++ utf8 (jsonStringify (normalizeRequestBody body)))) 16 ∧
    ((∀ xs, body ≠ Json.arr xs) →
      getCacheKey url body =
        strTake (sha256Hex (utf8 url ++ utf8 (jsonStringify body))) 16) ∧
    (∀ xs, body = Json.arr xs →
      normalizeRequestBody body = Json.obj (xs.enum.map fun p => (toString p.1, p.2))) := by
  refine ⟨rfl, ?_, ?_⟩
  · intro hna
    have hid : normalizeRequestBody body = body := by
      cases body with
      | obj entries => simp [normalizeRequestBody]
      | arr xs => exact absurd rfl (hna xs)
      | null => rfl
      | bool b => rfl
      | num n => rfl
      | str s => rfl
    rw [getCacheKey, hid]
  · intro xs hxs
    subst hxs
    rfl

/-- Witness for C3 on a non-array body. -/
theorem claim_C3_key_witness :
    getCacheKey "u" (Json.obj [("model", Json.str "m")]) =
      strTake (sha256Hex (utf8 "u" ++
        utf8 (jsonStringify (Json.obj [("model", Json.str "m")])))) 16 :=
  (claim_C3_key "u" (Json.obj [("model", Json.str "m")])).2.1
    (fun xs h => Json.noConfusion h)

/-- Counterexample to C3 as stated: for an array body the normalization
is not the identity, and the key differs from the digest over
`JSON.stringify(body)` itself. -/
theorem claim_C3_counterexample :
    getCacheKey "u" (Json.arr [Json.num 0]) ≠
      strTake (sha256Hex (utf8 "u" ++ utf8 (jsonStringify (Json.arr [Json.num 0])))) 16 := by
  decide

/-- C4 (amended): for a data URL whose media type is non-empty, free of
`;` and of the sidecar marker, and whose payload is non-empty, free of
line terminators and longer than the threshold, encoding replaces only
the payload: the reference keeps the identical data-URL prefix inline
followed by the marker and the hash of the payload alone, exactly the
payload is externalized, and decoding against the written sidecar
directory restores the full original string exactly. -/
theorem claim_C4_dataurl (t : Nat) (mt X : String) (st₀ : SideStore)
    (hmt : mt.data ≠ []) (hsemi : ∀ c ∈ mt.data, c ≠ ';')
    (hX : X.data ≠ []) (hXl : ∀ c ∈ X.data, isLineTerm c = false)
    (hlen : X.length > t)
    (hnm : strIncludes ("data:" ++ mt ++ ";base64," ++ X) SIDECAR_MARKER = false) :
    replaceLeaf t ("data:" ++ mt ++ ";base64," ++ X) =
      ("data:" ++ mt ++ ";base64,") ++ (SIDECAR_MARKER ++ hashValue X) ∧
    stringifyWrites t (Json.str ("data:" ++ mt ++ ";base64," ++ X)) =
      [(hashValue X ++ ".sidecar", X)] ∧
    parseTree
        (applyWrites st₀
          (stringifyWrites t (Json.str ("data:" ++ mt ++ ";base64," ++ X))))
        (stringifyTree t (Json.str ("data:" ++ mt ++ ";base64," ++ X))) =
      Json.str ("data:" ++ mt ++ ";base64," ++ X) := by
  have hd := dataUrlMatch_eq mt X hmt hsemi hX hXl
  have hsl : ("data:" ++ mt ++ ";base64," ++ X).length > t := by
    have h1 : ("data:" ++ mt ++ ";base64," ++ X).length =
        ("data:" ++ mt ++ ";base64,").length + X.length := strLength_append _ _
    omega
  refine ⟨?_, ?_, ?_⟩
  · rw [replaceLeaf, if_pos hsl,
      processLargeString_dataurl _ ("data:" ++ mt ++ ";base64,") X hd]
  · rw [stringifyWrites_eq_foldl]
    simp only [Json.strings_str, List.foldl_cons, List.foldl_nil]
    rw [writeStep, if_pos hsl,
      processLargeString_dataurl _ ("data:" ++ mt ++ ";base64,") X hd]
    have hp_nm := dataurl_pre_marker_free _ ("data:" ++ mt ++ ";base64,") X hd hnm
    have hdec := dataUrlMatch_decomp _ ("data:" ++ mt ++ ";base64,") X hd
    rw [extract_dataurl _ _ hp_nm hdec.2.2]
    rfl
  · apply sidecar_roundTrip
    · intro s' hs'
      simp only [Json.strings_str, List.mem_singleton] at hs'
      subst hs'
      exact hnm
    · intro s₁ hs₁ s₂ hs₂ _ _ _
      simp only [Json.strings_str, List.mem_singleton] at hs₁ hs₂
      rw [hs₁, hs₂]

/-- Witness for C4 with a concrete PDF-style data URL. -/
theorem claim_C4_dataurl_witness :
    replaceLeaf 5 ("data:" ++ "application/pdf" ++ ";base64," ++ "AAAAAA") =
      ("data:" ++ "application/pdf" ++ ";base64,") ++
        (SIDECAR_MARKER ++ hashValue "AAAAAA") ∧
    stringifyWrites 5
        (Json.str ("data:" ++ "application/pdf" ++ ";base64," ++ "AAAAAA")) =
      [(hashValue "AAAAAA" ++ ".sidecar", "AAAAAA")] ∧
    parseTree
        (applyWrites (fun _ => none)
          (stringifyWrites 5
            (Json.str ("data:" ++ "application/pdf" ++ ";base64," ++ "AAAAAA"))))
        (stringifyTree 5
          (Json.str ("data:" ++ "application/pdf" ++ ";base64," ++ "AAAAAA"))) =
      Json.str ("data:" ++ "application/pdf" ++ ";base64," ++ "AAAAAA") :=
  claim_C4_dataurl 5 "application/pdf" "AAAAAA" (fun _ => none)
    (by decide) (by decide) (by decide) (by decide) (by decide) (by decide)

/-- Counterexample to C4 as stated: a payload containing a line
terminator defeats the regex, so the whole string is externalized as a
plain string and the placeholder does not begin with the data-URL
prefix. -/
theorem claim_C4_counterexample :
    strTake (replaceLeaf 5 "data:t;base64,aaaa\naa") 14 ≠ "data:t;base64," := by
  decide

/-- C8: the sidecar filename is derived solely from the content hash (for
a plain long leaf, the hash of the string's own bytes); encoding two
values sharing a byte-identical long string leaf into the same shared
directory yields exactly one file holding that content; and the second
encoding's repeat write is an idempotent overwrite of the same path with
identical bytes. -/
theorem claim_C8_dedup (t : Nat) (v₁ v₂ : Json) (s : String)
    (hs₁ : s ∈ v₁.strings) (hs₂ : s ∈ v₂.strings) (hl : s.length > t)
    (hplain : dataUrlMatch s = none)
    (hnm₁ : ∀ s' ∈ v₁.strings, strIncludes s' SIDECAR_MARKER = false)
    (hnm₂ : ∀ s' ∈ v₂.strings, strIncludes s' SIDECAR_MARKER = false)
    (hinj : ∀ s₁ ∈ v₁.strings ++ v₂.strings, ∀ s₂ ∈ v₁.strings ++ v₂.strings,
      s₁.length > t → s₂.length > t →
      hashValue (processLargeString s₁).content =
        hashValue (processLargeString s₂).content →
      (processLargeString s₁).content = (processLargeString s₂).content) :
    sidecarKeyOf s = some (hashValue s ++ ".sidecar") ∧
    (∀ p, applyWrites (applyWrites (fun _ => none) (stringifyWrites t v₁))
        (stringifyWrites t v₂) p = some s ↔ p = hashValue s ++ ".sidecar") ∧
    applyWrites (applyWrites (fun _ => none) (stringifyWrites t v₁))
        (stringifyWrites t v₂) (hashValue s ++ ".sidecar") =
      applyWrites (fun _ => none) (stringifyWrites t v₁)
        (hashValue s ++ ".sidecar") := by
  have hcontent : (processLargeString s).content = s := by
    rw [processLargeString_plain s hplain]
  have hinj₁ : ∀ s₁ ∈ v₁.strings, ∀ s₂ ∈ v₁.strings, s₁.length > t → s₂.length > t →
      hashValue (processLargeString s₁).content =
        hashValue (processLargeString s₂).content →
      (processLargeString s₁).content = (processLargeString s₂).content :=
    fun s₁ h₁ s₂ h₂ => hinj s₁ (by simp [h₁]) s₂ (by simp [h₂])
  have hinj₂ : ∀ s₁ ∈ v₂.strings, ∀ s₂ ∈ v₂.strings, s₁.length > t → s₂.length > t →
      hashValue (processLargeString s₁).content =
        hashValue (processLargeString s₂).content →
      (processLargeString s₁).content = (processLargeString s₂).content :=
    fun s₁ h₁ s₂ h₂ => hinj s₁ (by simp [h₁]) s₂ (by simp [h₂])
  have hst₁ : applyWrites (fun _ => none) (stringifyWrites t v₁)
      (hashValue s ++ ".sidecar") = some s := by
    have := stringify_store_content t v₁ (fun _ => none) hnm₁ hinj₁ s hs₁ hl
    rw [hcontent] at this
    exact this
  have hst₂ : applyWrites (applyWrites (fun _ => none) (stringifyWrites t v₁))
      (stringifyWrites t v₂) (hashValue s ++ ".sidecar") = some s := by
    have := stringify_store_content t v₂
      (applyWrites (fun _ => none) (stringifyWrites t v₁)) hnm₂ hinj₂ s hs₂ hl
    rw [hcontent] at this
    exact this
  refine ⟨?_, ?_, ?_⟩
  · have := sidecarKeyOf_clean s (hnm₁ s hs₁)
    rw [hcontent] at this
    exact this
  · intro p
    constructor
    · intro hp
      rcases applyWrites_some _ _ _ _ hp with hmem | hrest
      · rw [stringifyWrites_eq_foldl] at hmem
        rcases foldl_writeStep_mem t v₂.strings [] (p, s) hmem with h | h
        · simp at h
        · obtain ⟨s', hs', hl', hk', hc'⟩ := h
          rw [sidecarKeyOf_clean s' (hnm₂ s' hs')] at hk'
          simp only [Option.some.injEq] at hk'
          simp only at hc'
          rw [← hk', ← hc']
      · rcases applyWrites_some _ _ _ _ hrest with hmem | habs
        · rw [stringifyWrites_eq_foldl] at hmem
          rcases foldl_writeStep_mem t v₁.strings [] (p, s) hmem with h | h
          · simp at h
          · obtain ⟨s', hs', hl', hk', hc'⟩ := h
            rw [sidecarKeyOf_clean s' (hnm₁ s' hs')] at hk'
            simp only [Option.some.injEq] at hk'
            simp only at hc'
            rw [← hk', ← hc']
        · exact absurd habs (by simp)
    · intro hp
      subst hp
      exact hst₂
  · rw [hst₁, hst₂]

/-- Witness for C8 with two small values sharing the leaf `"hello"`. -/
theorem claim_C8_dedup_witness :
    sidecarKeyOf "hello" = some (hashValue "hello" ++ ".sidecar") ∧
    applyWrites
        (applyWrites (fun _ => none)
          (stringifyWrites 4 (Json.obj [("a", Json.str "hello")])))
        (stringifyWrites 4 (Json.arr [Json.str "hello", Json.str "xy"]))
        (hashValue "hello" ++ ".sidecar") =
      applyWrites (fun _ => none)
        (stringifyWrites 4 (Json.obj [("a", Json.str "hello")]))
        (hashValue "hello" ++ ".sidecar") := by
  have h := claim_C8_dedup 4 (Json.obj [("a", Json.str "hello")])
    (Json.arr [Json.str "hello", Json.str "xy"]) "hello"
    (by decide) (by decide) (by decide) (by decide) (by decide) (by decide)
    (by decide)
  exact ⟨h.1, h.2.2⟩

/-- C9: when caching is disabled, or the request is not a body-bearing
POST, or the body fails to parse as JSON, the wrapper delegates to the
real transport exactly once, creates no cache state, and returns the
transport's response unmodified. -/
theorem claim_C9_bypass (enabled : Bool) (ttlMs : Int) (transport : Transport)
    (stackInfo : StackInfo) (now : Nat) (fs : Fs) (input : String)
    (init : Option RequestInit)
    (h : enabled = false ∨ init = none ∨
      (∃ i, init = some i ∧ (i.method ≠ some "POST" ∨ i.body = none ∨
        i.body = some JsBody.empty ∨ ∃ s, i.body = some (JsBody.unparsable s)))) :
    cachedFetch enabled ttlMs transport stackInfo now fs input init =
      { out := some (transport input init), fs := fs, transportCalls := 1 } := by
  rw [cachedFetch.eq_def]
  rcases h with h | h | h
  · subst h
    simp
  · subst h
    simp
  · obtain ⟨i, hi, hcases⟩ := h
    subst hi
    rcases hcases with hm | hb | hb | ⟨s, hb⟩
    · simp [hm]
    · simp [hb]
    · simp [hb]
    · split
      · rfl
      · simp [hb]

/-- Witness for C9: disabled caching and a non-JSON body both pass
through. -/
def bypassDemoResponse : HttpResponse :=
  { status := 200, statusText := "OK", headers := [], body := .rawText "x" }

theorem claim_C9_bypass_witness :
    cachedFetch false 3600000 (fun _ _ => bypassDemoResponse)
        ({ frames := [], callerFile := none }) 0 Fs.empty "u" none =
      { out := some bypassDemoResponse, fs := Fs.empty, transportCalls := 1 } :=
  claim_C9_bypass false 3600000 (fun _ _ => bypassDemoResponse)
    ({ frames := [], callerFile := none }) 0 Fs.empty "u" none (Or.inl rfl)

/-! ## Digest length facts -/

theorem sha256Block_length (hv b : List Nat) : (sha256Block hv b).length = 8 := by
  rw [sha256Block]
  simp

theorem foldl_sha256Block_length (bs : List (List Nat)) :
    ∀ hv : List Nat, hv.length = 8 → (bs.foldl sha256Block hv).length = 8 := by
  induction bs with
  | nil => exact fun hv h => h
  | cons b tl ih =>
    intro hv _
    rw [List.foldl_cons]
    exact ih _ (sha256Block_length hv b)

theorem sha256Words_length (msg : List Nat) : (sha256Words msg).length = 8 := by
  rw [sha256Words]
  exact foldl_sha256Block_length _ sha256H0 rfl

theorem flatMap_wordToHex_length (ws : List Nat) :
    (ws.flatMap wordToHex).length = 8 * ws.length := by
  induction ws with
  | nil => rfl
  | cons w tl ih =>
    rw [List.flatMap_cons, List.length_append, ih]
    have : (wordToHex w).length = 8 := by
      rw [wordToHex, List.length_map, List.length_range]
    rw [this, List.length_cons]
    ring

theorem sha256Hex_length (msg : List Nat) : (sha256Hex msg).length = 64 := by
  rw [sha256Hex]
  show ((sha256Words msg).flatMap wordToHex).length = 64
  rw [flatMap_wordToHex_length, sha256Words_length]

theorem hashValue_length (s : String) : (hashValue s).length = 12 := by
  rw [hashValue, strTake]
  show ((sha256Hex (utf8 s)).data.take 12).length = 12
  rw [List.length_take]
  have : (sha256Hex (utf8 s)).data.length = 64 := sha256Hex_length (utf8 s)
  omega

theorem marker_hash_ne (s : String) (hs : s.length > 1000) :
    SIDECAR_MARKER ++ hashValue s ≠ s := by
  intro he
  have hlen := congrArg String.length he
  rw [strLength_append, hashValue_length] at hlen
  have hm : SIDECAR_MARKER.length = 12 := rfl
  omega

/-! ## Path disjointness -/

theorem pathJoin_ne_of_ne (a x y : String) (h : x ≠ y) :
    pathJoin a x ≠ pathJoin a y :=
  strAppend_ne_of_ne (a ++ "/") x y h

theorem strGet_append_left (a b : String) (i : Nat) (c : Char)
    (h : a.data.get? i = some c) : (a ++ b).data.get? i = some c := by
  rw [strData_append]
  have hlt : i < a.data.length := by
    cases hcmp : Nat.decLt i a.data.length with
    | isTrue ht => exact ht
    | isFalse hf =>
      exfalso
      rw [List.get?_eq_none.mpr (by omega)] at h
      exact Option.noConfusion h
  rw [List.get?_append hlt]
  exact h

theorem cachePath_ne_sidecarPath (K n₁ n₂ : String) :
    pathJoin (getCacheFolder K) n₁ ≠ pathJoin SIDECAR_DIR n₂ := by
  apply strNe_of_get _ _ 7 'r' 's'
  · show ((getCacheFolder K ++ "/") ++ n₁).data.get? 7 = some 'r'
    apply strGet_append_left
    apply strGet_append_left
    show (((CACHE_DIR ++ "/") ++ K)).data.get? 7 = some 'r'
    apply strGet_append_left
    apply strGet_append_left
    decide
  · show ((SIDECAR_DIR ++ "/") ++ n₂).data.get? 7 = some 's'
    apply strGet_append_left
    apply strGet_append_left
    decide
  · decide

theorem cacheFolder_ne_sidecarDir (K : String) : getCacheFolder K ≠ SIDECAR_DIR := by
  apply strNe_of_get _ _ 7 'r' 's'
  · show ((CACHE_DIR ++ "/") ++ K).data.get? 7 = some 'r'
    apply strGet_append_left
    apply strGet_append_left
    decide
  · decide
  · decide

/-! ## The C1 scenario: a cached response with an over-threshold string -/

def demoBody : Json := Json.obj [("model", Json.str "m")]

def demoResponse (s : String) : HttpResponse :=
  { status := 200, statusText := "OK",
    headers := [("content-type", "application/json")],
    body := .jsonText (Json.obj [("data", Json.str s)]) }

def demoTransport (s : String) : Transport := fun _ _ => demoResponse s

def demoInit : Option RequestInit :=
  some { method := some "POST", body := some (.parsable demoBody) }

def demoStack : StackInfo := { frames := [], callerFile := none }

def demoCached (s : String) : CachedResponse :=
  { status := 200, statusText := "OK",
    headers := [("content-type", "application/json")],
    body := { json := some (Json.obj [("data", Json.str s)]), text := none },
    timestamp := 0 }

/-- The response actually served on the fresh cache hit. -/
def demoServed (s : String) : HttpResponse :=
  { status := 200, statusText := "OK",
    headers := [("content-type", "application/json")],
    body := .jsonText (Json.obj [("data",
      Json.str (SIDECAR_MARKER ++ hashValue s))]) }

def demoRun1 (s : String) : FetchResult :=
  cachedFetch true 3600000 (demoTransport s) demoStack 0 Fs.empty
    "https://example/api" demoInit

def demoRun2 (s : String) : FetchResult :=
  cachedFetch true 3600000 (demoTransport s) demoStack 1000 (demoRun1 s).fs
    "https://example/api" demoInit

theorem demoRun1_eq (s : String) :
    demoRun1 s =
      { out := some (demoResponse s),
        fs := cacheResponse Fs.empty "https://example/api" demoBody
                (demoCached s) demoStack,
        transportCalls := 1 } := rfl

/-! ## File contents written by `cacheResponse` -/

theorem mkdirDir_files (fs : Fs) (p q : String) : (mkdirDir fs p).files q = fs.files q := rfl

theorem writeFileData_files (fs : Fs) (p : String) (d : FileData) (q : String) :
    (writeFileData fs p d).files q = if q = p then some d else fs.files q := rfl

theorem foldl_writeFiles_other (d : String) (ws : List (String × String)) (p : String)
    (h : ∀ kv ∈ ws, p ≠ pathJoin d kv.1) :
    ∀ fs : Fs,
      (ws.foldl (fun st kv => writeFileData st (pathJoin d kv.1) (.textData kv.2)) fs).files p
        = fs.files p := by
  induction ws with
  | nil => intro fs; rfl
  | cons hd tl ih =>
    intro fs
    rw [List.foldl_cons, ih (fun kv hm => h kv (List.mem_cons_of_mem _ hm))]
    rw [writeFileData_files, if_neg (h hd (List.mem_cons_self _ _))]

theorem sidecarWriteFile_files_main (fs : Fs) (mainPath : String) (v : Json) (d : String) :
    (sidecarWriteFile fs mainPath v d).files mainPath =
      some (.jsonData (stringifyTree DEFAULT_THRESHOLD v)) := by
  simp only [sidecarWriteFile]
  rw [writeFileData_files, if_pos rfl]

theorem sidecarWriteFile_files_other (fs : Fs) (mainPath : String) (v : Json) (d : String)
    (p : String) (hne : p ≠ mainPath)
    (hside : ∀ kv ∈ stringifyWrites DEFAULT_THRESHOLD v, p ≠ pathJoin d kv.1) :
    (sidecarWriteFile fs mainPath v d).files p = fs.files p := by
  simp only [sidecarWriteFile]
  rw [writeFileData_files, if_neg hne, foldl_writeFiles_other d _ p hside]
  by_cases hdir : existsDir fs d
  · rw [if_neg (by simp [hdir])]
  · rw [if_pos (by simp [hdir]), mkdirDir_files]

theorem cacheResponse_files_response (fs : Fs) (url : String) (rb : Json)
    (resp : CachedResponse) (st : StackInfo) :
    (cacheResponse fs url rb resp st).files
        (getCachePaths (getCacheKey url rb)).response =
      some (.jsonData (stringifyTree DEFAULT_THRESHOLD (responseToJson resp))) := by
  simp only [cacheResponse]
  exact sidecarWriteFile_files_main _ _ _ _

theorem dirIf_files (c : Prop) [Decidable c] (fs : Fs) (d q : String) :
    (if c then mkdirDir fs d else fs).files q = fs.files q := by
  split <;> rfl

theorem cacheResponse_files_meta (fs : Fs) (url : String) (rb : Json)
    (resp : CachedResponse) (st : StackInfo) :
    ∃ mj : Json, (cacheResponse fs url rb resp st).files
        (getCachePaths (getCacheKey url rb)).meta = some (.jsonData mj) := by
  simp only [cacheResponse, getCachePaths]
  rw [sidecarWriteFile_files_other _ _ _ _ _
        (pathJoin_ne_of_ne _ _ _ (by decide))
        (fun kv _ => cachePath_ne_sidecarPath _ "meta.json" kv.1),
      sidecarWriteFile_files_other _ _ _ _ _
        (pathJoin_ne_of_ne _ _ _ (by decide))
        (fun kv _ => cachePath_ne_sidecarPath _ "meta.json" kv.1),
      dirIf_files, writeFileData_files, if_pos rfl]
  exact ⟨_, rfl⟩

/-! ## The cached response tree of the C1 scenario -/

/-- What `response.json` holds after the first call: the over-threshold
string leaf has been replaced by its sidecar placeholder. -/
def demoTree (s : String) : Json :=
  Json.obj [("status", Json.num 200), ("statusText", Json.str "OK"),
    ("headers", Json.obj [("content-type", Json.str "application/json")]),
    ("body", Json.obj [("json",
      Json.obj [("data", Json.str (SIDECAR_MARKER ++ hashValue s))])]),
    ("timestamp", Json.num 0)]

theorem demoRespTree (s : String) (hs : s.length > 1000)
    (hd : dataUrlMatch s = none) :
    stringifyTree DEFAULT_THRESHOLD (responseToJson (demoCached s)) = demoTree s := by
  have hrepl : replaceLeaf DEFAULT_THRESHOLD s = SIDECAR_MARKER ++ hashValue s := by
    rw [replaceLeaf, if_pos (show s.length > DEFAULT_THRESHOLD from hs),
        processLargeString_plain s hd]
  have h1 : replaceLeaf DEFAULT_THRESHOLD "OK" = "OK" := by decide
  have h2 : replaceLeaf DEFAULT_THRESHOLD "application/json" = "application/json" := by
    decide
  rw [stringifyTree]
  simp [responseToJson, demoCached, headersToJson, bodyToJson, demoTree, hrepl, h1, h2]

theorem demoRespWrites (s : String) (hs : s.length > 1000)
    (hd : dataUrlMatch s = none) :
    stringifyWrites DEFAULT_THRESHOLD (responseToJson (demoCached s)) =
      [(hashValue s ++ ".sidecar", s)] := by
  rw [stringifyWrites_eq_foldl]
  have hstr : (responseToJson (demoCached s)).strings = ["OK", "application/json", s] := by
    simp [responseToJson, demoCached, headersToJson, bodyToJson]
  rw [hstr]
  have h1 : writeStep DEFAULT_THRESHOLD [] "OK" = [] := by decide
  have h2 : writeStep DEFAULT_THRESHOLD [] "application/json" = [] := by decide
  rw [List.foldl_cons, h1, List.foldl_cons, h2, List.foldl_cons, List.foldl_nil]
  rw [writeStep, if_pos (show s.length > DEFAULT_THRESHOLD from hs),
      processLargeString_plain s hd]
  simp [extract_marker_append, mapSet]

/-- The lookup performed by the second call finds the entry written by the
first call, whose response tree carries the placeholder. -/
theorem demo_lookup (s : String) (hs : s.length > 1000)
    (hd : dataUrlMatch s = none) :
    ∃ mj : Json,
      getCachedResponse (demoRun1 s).fs "https://example/api" demoBody =
        (some (mj, demoTree s), (demoRun1 s).fs) := by
  obtain ⟨mj, hmeta⟩ := cacheResponse_files_meta Fs.empty "https://example/api"
    demoBody (demoCached s) demoStack
  have hresp := cacheResponse_files_response Fs.empty "https://example/api"
    demoBody (demoCached s) demoStack
  rw [demoRespTree s hs hd] at hresp
  have hfs : (demoRun1 s).fs =
      cacheResponse Fs.empty "https://example/api" demoBody (demoCached s) demoStack := rfl
  refine ⟨mj, ?_⟩
  rw [hfs]
  simp only [getCachedResponse, existsFile, readJsonFile, hmeta, hresp,
    Option.isSome_some]
  simp

/-! ## The fresh-hit path of `cachedFetch` -/

theorem cachedFetch_hit (ttlMs : Int) (transport : Transport)
    (stackInfo : StackInfo) (now : Nat) (fs : Fs) (input : String)
    (i : RequestInit) (rb mj rj bobj bj : Json) (ts : Nat)
    (hmethod : i.method = some "POST")
    (hbody : i.body = some (.parsable rb))
    (hlook : getCachedResponse fs input rb = (some (mj, rj), fs))
    (hts : jsGetProp rj "timestamp" = some (some (.num ts)))
    (hfresh : (now : Int) - ts < ttlMs)
    (hb1 : jsGetProp rj "body" = some (some bobj))
    (hb2 : jsGetProp bobj "json" = some (some bj)) :
    cachedFetch true ttlMs transport stackInfo now fs input (some i) =
      { out := some { status := respStatusOf rj, statusText := respStatusTextOf rj,
                      headers := respHeadersOf rj, body := .jsonText bj },
        fs := fs, transportCalls := 0 } := by
  rw [cachedFetch.eq_def]
  simp only [hmethod, hbody, hlook, hts, hb1, hb2, Bool.not_true, Bool.false_or,
    ne_eq, not_true_eq_false, Option.some.injEq, reduceCtorEq,
    or_self, decide_eq_true_eq, Bool.or_self, if_false]
  rw [if_pos hfresh]

theorem demoRun2_eq (s : String) (hs : s.length > 1000)
    (hd : dataUrlMatch s = none) :
    demoRun2 s =
      { out := some (demoServed s), fs := (demoRun1 s).fs, transportCalls := 0 } := by
  obtain ⟨mj, hlook⟩ := demo_lookup s hs hd
  have h := cachedFetch_hit 3600000 (demoTransport s) demoStack 1000 (demoRun1 s).fs
    "https://example/api"
    { method := some "POST", body := some (.parsable demoBody) }
    demoBody mj (demoTree s)
    (Json.obj [("json", Json.obj [("data", Json.str (SIDECAR_MARKER ++ hashValue s))])])
    (Json.obj [("data", Json.str (SIDECAR_MARKER ++ hashValue s))]) 0
    rfl rfl hlook rfl (by decide) rfl rfl
  rw [demoRun2]
  rw [show demoInit = some { method := some "POST", body := some (.parsable demoBody) } from rfl]
  rw [h]
  rfl

/-- **C1.** The claim says a within-TTL repeat of a cached request is
served from disk with the originally captured response content, sidecar
references being resolved on read.  This is false of the code: the lookup
parses `response.json` with plain `JSON.parse` and never rehydrates
sidecar references, so for any response carrying a string leaf longer
than the 1000-character threshold (here not a data URL), the first call
returns the live response while the second call — a fresh cache hit —
returns a body whose leaf is the sidecar placeholder
`"__SIDECAR__:" ++ hashValue s`, a different response. -/
theorem claim_C1_fresh_hit_serves_placeholder (s : String)
    (hs : s.length > 1000) (hd : dataUrlMatch s = none) :
    (demoRun1 s).out = some (demoResponse s) ∧
    (demoRun1 s).transportCalls = 1 ∧
    (demoRun2 s).out = some (demoServed s) ∧
    (demoRun2 s).transportCalls = 0 ∧
    (demoRun2 s).out ≠ (demoRun1 s).out := by
  have h2 := demoRun2_eq s hs hd
  refine ⟨rfl, rfl, by rw [h2], by rw [h2], ?_⟩
  rw [h2]
  have hr1 : (demoRun1 s).out = some (demoResponse s) := rfl
  rw [hr1]
  intro he
  injection he with he
  have hb := congrArg HttpResponse.body he
  simp [demoServed, demoResponse] at hb
  exact marker_hash_ne s hs hb

theorem claim_C1_fresh_hit_serves_placeholder_witness :
    (demoRun1 (String.mk (List.replicate 1001 'a'))).out =
        some (demoResponse (String.mk (List.replicate 1001 'a'))) ∧
    (demoRun1 (String.mk (List.replicate 1001 'a'))).transportCalls = 1 ∧
    (demoRun2 (String.mk (List.replicate 1001 'a'))).out =
        some (demoServed (String.mk (List.replicate 1001 'a'))) ∧
    (demoRun2 (String.mk (List.replicate 1001 'a'))).transportCalls = 0 ∧
    (demoRun2 (String.mk (List.replicate 1001 'a'))).out ≠
        (demoRun1 (String.mk (List.replicate 1001 'a'))).out :=
  claim_C1_fresh_hit_serves_placeholder (String.mk (List.replicate 1001 'a'))
    (by decide) (by decide)

end OpenRouterCache
